import Mathlib

/-!
Verification development for the overseas-entities data pipeline.

The Python sources under `data_creator/` are shallowly embedded here:
strings are lists of characters, dictionaries become structures with
optional fields, the HTTP client is modelled as a function consuming the
list of responses the registry would return, and module-level caches are
passed as explicit state.  Every definition is translated from the source
files (`roe_common_functions.py`, `roe_2_find_BOs.py`,
`roe_5_categorise_BOs.py`) unless its doc comment says otherwise.
-/

set_option maxRecDepth 10000

namespace ROE

/-- Python strings are modelled as lists of characters. -/
abbrev Str := List Char

/-- Turn a Lean string literal into the `Str` model. -/
def str (s : String) : Str := s.data

/-- Character class of Python's whitespace (`str.isspace`, regex `\s`):
ASCII whitespace plus the Unicode space characters. -/
def isPySpace (c : Char) : Bool :=
  let n := c.toNat
  n = 32 || (9 ≤ n && n ≤ 13) || (28 ≤ n && n ≤ 31) || n = 0x85 || n = 0xa0 ||
  n = 0x1680 || (0x2000 ≤ n && n ≤ 0x200a) || n = 0x2028 || n = 0x2029 ||
  n = 0x202f || n = 0x205f || n = 0x3000

/-- Word characters for the regex `\b` boundary (`[a-zA-Z0-9_]`; the texts
the patterns run on are ASCII by then). -/
def wordChar (c : Char) : Bool :=
  let n := c.toNat
  (65 ≤ n && n ≤ 90) || (97 ≤ n && n ≤ 122) || (48 ≤ n && n ≤ 57) || n = 95

/-- Lowercase ASCII letters and digits: the characters kept by the
punctuation-stripping pattern `[^a-z0-9\s]+` apart from whitespace. -/
def isLowerAlnum (c : Char) : Bool :=
  let n := c.toNat
  (97 ≤ n && n ≤ 122) || (48 ≤ n && n ≤ 57)

/-- Characters kept by `re.sub(r'[^a-z0-9\s]+', '', text)`. -/
def keepChar (c : Char) : Bool := isLowerAlnum c || isPySpace c

/-- ASCII lowercasing of a single character (`str.lower` restricted to the
ASCII range; accented letters are handled by `lowerFoldChar`). -/
def pyLowerChar (c : Char) : Char :=
  if 65 ≤ c.toNat ∧ c.toNat ≤ 90 then Char.ofNat (c.toNat + 32) else c

/-- `text.lower()` on a whole string. -/
def pyLowerStr (cs : Str) : Str := cs.map pyLowerChar

/-- Latin-1 accented letters together with their unaccented base letter.
`unicodedata.normalize('NFKD', ·)` decomposes each of them into the base
letter followed by a combining mark, which `_fold` then drops. -/
def accentBase : List (Char × Char) :=
  [('à', 'a'), ('á', 'a'), ('â', 'a'), ('ã', 'a'), ('ä', 'a'), ('å', 'a'),
   ('è', 'e'), ('é', 'e'), ('ê', 'e'), ('ë', 'e'),
   ('ì', 'i'), ('í', 'i'), ('î', 'i'), ('ï', 'i'),
   ('ò', 'o'), ('ó', 'o'), ('ô', 'o'), ('õ', 'o'), ('ö', 'o'), ('ø', 'o'),
   ('ù', 'u'), ('ú', 'u'), ('û', 'u'), ('ü', 'u'),
   ('ñ', 'n'), ('ç', 'c'), ('ý', 'y'), ('ÿ', 'y'),
   ('À', 'a'), ('Á', 'a'), ('Â', 'a'), ('Ã', 'a'), ('Ä', 'a'), ('Å', 'a'),
   ('È', 'e'), ('É', 'e'), ('Ê', 'e'), ('Ë', 'e'),
   ('Ì', 'i'), ('Í', 'i'), ('Î', 'i'), ('Ï', 'i'),
   ('Ò', 'o'), ('Ó', 'o'), ('Ô', 'o'), ('Õ', 'o'), ('Ö', 'o'), ('Ø', 'o'),
   ('Ù', 'u'), ('Ú', 'u'), ('Û', 'u'), ('Ü', 'u'),
   ('Ñ', 'n'), ('Ç', 'c'), ('Ý', 'y')]

/-- The composition `_fold(text.lower())` from `normalise_text`, one
character at a time: ASCII uppercase is lowercased, accented Latin letters
lose their accent (NFKD plus dropping combining marks, after `lower`),
combining marks are dropped, and everything else is kept.  The Unicode
tables behind `unicodedata` are modelled by the `accentBase` list; NFKD is
the identity on the ASCII characters that all theorems below depend on. -/
def lowerFoldChar (c : Char) : List Char :=
  if 65 ≤ c.toNat ∧ c.toNat ≤ 90 then [Char.ofNat (c.toNat + 32)]
  else if 0x300 ≤ c.toNat ∧ c.toNat ≤ 0x36f then []
  else match (accentBase.find? (fun p => p.fst = c)) with
       | some p => [p.snd]
       | none => [c]

/-- `_fold(text.lower())` on a whole string. -/
def lowerFold (cs : Str) : Str := (cs.map lowerFoldChar).flatten

/-- `str.strip()`: drop Python whitespace from both ends. -/
def pyStrip (cs : Str) : Str :=
  ((cs.dropWhile isPySpace).reverse.dropWhile isPySpace).reverse

/-- Helper for `pySplit`: accumulates the current word (reversed). -/
def pySplitAux : List Char → Str → List Str
  | acc, [] => if acc = [] then [] else [acc.reverse]
  | acc, c :: rest =>
    if isPySpace c then
      if acc = [] then pySplitAux [] rest else acc.reverse :: pySplitAux [] rest
    else pySplitAux (c :: acc) rest

/-- Python `str.split()` with no argument: split on whitespace runs and
drop empty fields. -/
def pySplit (cs : Str) : List Str := pySplitAux [] cs

/-- Python `str.split(sep)` for a one-character separator: keeps empty
fields, and the split of the empty string is `[""]`. -/
def splitOnChar (sep : Char) : Str → List Str
  | [] => [[]]
  | c :: rest =>
    match splitOnChar sep rest with
    | [] => [[]]
    | h :: t => if c = sep then [] :: h :: t else (c :: h) :: t

/-- Python `text.replace(pat, '')` for a non-empty pattern: delete every
occurrence, scanning left to right without overlap.  The fuel argument
makes the recursion structural (every step consumes at least one
character, so a fuel equal to the input length never runs out). -/
def pyReplaceDelF (pat : Str) : Nat → Str → Str
  | 0, cs => cs
  | _ + 1, [] => []
  | fuel + 1, c :: rest =>
    if pat ≠ [] ∧ pat.isPrefixOf (c :: rest) then
      pyReplaceDelF pat fuel ((c :: rest).drop pat.length)
    else
      c :: pyReplaceDelF pat fuel rest

/-- `text.replace(pat, '')` with the fuel filled in. -/
def pyReplaceDel (pat : Str) (cs : Str) : Str := pyReplaceDelF pat cs.length cs

/-- `', '.join(parts)`. -/
def joinComma (parts : List Str) : Str :=
  (List.intercalate (str ", ") parts)

/-- Python's substring test `pat in s`. -/
def containsSub (pat : Str) : Str → Bool
  | [] => pat.isEmpty
  | c :: rest => pat.isPrefixOf (c :: rest) || containsSub pat rest


/-! ### The acronym-collapsing substitutions

`normalise_text` first rewrites dotted or spaced corporate acronyms with
patterns of the shape `\bs\s*\.?\s*a\s*\.?\s*r\s*\.?\s*l\b`, replacing a
match by a space followed by the fused acronym.  The separator `\s*\.?\s*`
is deterministic here because the letters of the acronyms are neither
spaces nor dots, so greedy matching never needs to backtrack. -/

/-- Consume `\s*\.?\s*`: any whitespace, at most one dot, any whitespace. -/
def acrSep (cs : Str) : Str :=
  let s := cs.dropWhile isPySpace
  if s.headD ' ' = '.' then s.tail.dropWhile isPySpace else s

theorem acrSep_length_le (cs : Str) : (acrSep cs).length ≤ cs.length := by
  unfold acrSep
  have h1 : (cs.dropWhile isPySpace).length ≤ cs.length :=
    (List.dropWhile_sublist isPySpace).length_le
  have h2 : (((cs.dropWhile isPySpace).tail.dropWhile isPySpace)).length ≤
      ((cs.dropWhile isPySpace).tail).length :=
    (List.dropWhile_sublist isPySpace).length_le
  have h3 := (List.tail_sublist (cs.dropWhile isPySpace)).length_le
  dsimp only
  split <;> omega

/-- Match the letters of an acronym after the first one: each is preceded
by the `\s*\.?\s*` separator.  Returns the rest after the final letter. -/
def acrMatchRest : List Char → Str → Option Str
  | [], cs => some cs
  | l :: ls, cs =>
    if (acrSep cs) ≠ [] ∧ (acrSep cs).headD ' ' = l then
      acrMatchRest ls (acrSep cs).tail
    else none

theorem acrMatchRest_length {ls : List Char} {cs rest : Str}
    (h : acrMatchRest ls cs = some rest) : rest.length ≤ cs.length := by
  induction ls generalizing cs with
  | nil =>
    simp only [acrMatchRest, Option.some.injEq] at h
    subst h; exact le_rfl
  | cons l ls ih =>
    simp only [acrMatchRest] at h
    split at h
    · have hr := ih h
      have hle := acrSep_length_le cs
      have ht : (acrSep cs).tail.length ≤ (acrSep cs).length :=
        (List.tail_sublist _).length_le
      omega
    · exact absurd h (by simp)

/-- Match the full letter sequence of an acronym at the head of the
string: the first letter directly, the rest via `acrMatchRest`. -/
def acrMatchLetters : List Char → Str → Option Str
  | [], _ => none
  | _ :: _, [] => none
  | l :: ls, c :: r => if c = l then acrMatchRest ls r else none

theorem acrMatchLetters_length {letters : List Char} {cs rest : Str}
    (h : acrMatchLetters letters cs = some rest) : rest.length < cs.length := by
  cases letters with
  | nil => exact absurd h (by simp [acrMatchLetters])
  | cons l ls =>
    cases cs with
    | nil => exact absurd h (by simp [acrMatchLetters])
    | cons c r =>
      simp only [acrMatchLetters] at h
      split at h
      · have := acrMatchRest_length h
        simp only [List.length_cons]
        omega
      · exact absurd h (by simp)

/-- Match one acronym occurrence at the head of the string, including the
trailing `\b` (the final letter is a word character, so the next original
character must be a non-word character or the end; for the empty rest the
default head `' '` is a non-word character, giving a boundary). -/
def acrMatchAt (letters : List Char) (cs : Str) : Option Str :=
  (acrMatchLetters letters cs).bind
    (fun rest => if wordChar (rest.headD ' ') then none else some rest)

theorem acrMatchAt_length {letters : List Char} {cs rest : Str}
    (h : acrMatchAt letters cs = some rest) : rest.length < cs.length := by
  unfold acrMatchAt at h
  rw [Option.bind_eq_some] at h
  obtain ⟨r0, hm, hr⟩ := h
  have hlen := acrMatchLetters_length hm
  split at hr
  · exact absurd hr (by simp)
  · simp only [Option.some.injEq] at hr
    subst hr; exact hlen

/-- Scanner for `re.sub(acronym_pattern, ' ' + fused, text)`:
`pw` is whether the previous original character is a word character (the
leading `\b` of the pattern requires `pw = false`, the first letter being
a word character).  Scanning resumes after the matched region, with the
final letter as previous-character context, exactly as `re.sub` does.
The fuel makes the recursion structural; each step consumes at least one
character (`acrMatchAt_length`), so a fuel equal to the input length
never runs out. -/
def subAcrAuxF (letters : List Char) : Nat → Bool → Str → Str
  | 0, _, cs => cs
  | _ + 1, _, [] => []
  | fuel + 1, pw, c :: rest =>
    if pw then c :: subAcrAuxF letters fuel (wordChar c) rest
    else
      match acrMatchAt letters (c :: rest) with
      | some rest2 => ' ' :: letters ++ subAcrAuxF letters fuel true rest2
      | none => c :: subAcrAuxF letters fuel (wordChar c) rest

/-- One acronym substitution pass over the whole text. -/
def subAcr (letters : List Char) (cs : Str) : Str :=
  subAcrAuxF letters cs.length false cs

/-! ### The boilerplate-token removal

`NORMALIZATION_PATTERN` is `\b(?:t1|t2|...)\b` over the configured token
list (longest first), substituted by the empty string.  At each position
the scanner checks the leading word boundary, then tries the alternation
in order; after a match, scanning resumes at the match end with the
token's final character as previous-character context. -/

/-- Does token `t` match here: non-empty, a prefix of the text, and the
trailing `\b` holds (word-ness of its last character differs from the
word-ness of the next original character, the end counting as non-word)? -/
def matchTok (t : Str) (cs : Str) : Bool :=
  (!(t.isEmpty)) && t.isPrefixOf cs &&
    (wordChar (t.getLastD 'x') != wordChar ((cs.drop t.length).headD ' '))

/-- Leading `\b` plus the alternation: a match is only possible if the
word-ness of the previous character differs from that of the current
one, and the first token of the list that matches wins. -/
def tokenAt (pw : Bool) (tokens : List Str) (cs : Str) : Option Str :=
  match cs with
  | [] => none
  | c :: rest =>
    if pw != wordChar c then tokens.find? (fun t => matchTok t (c :: rest))
    else none

theorem tokenAt_some {pw : Bool} {tokens : List Str} {cs t : Str}
    (h : tokenAt pw tokens cs = some t) : t ≠ [] ∧ t.isPrefixOf cs := by
  cases cs with
  | nil => exact absurd h (by simp [tokenAt])
  | cons c rest =>
    simp only [tokenAt] at h
    split at h
    · have hp := List.find?_some h
      unfold matchTok at hp
      simp only [Bool.and_eq_true] at hp
      refine ⟨?_, hp.1.2⟩
      have := hp.1.1
      simpa [List.isEmpty_iff] using this
    · exact absurd h (by simp)

/-- `NORMALIZATION_PATTERN.sub('', text)`, fuelled like the scanners
above: a matched token is non-empty (`tokenAt_some`), so every step
consumes at least one character and a fuel equal to the input length
never runs out. -/
def reSubWordF (tokens : List Str) : Nat → Bool → Str → Str
  | 0, _, cs => cs
  | _ + 1, _, [] => []
  | fuel + 1, pw, c :: rest =>
    match tokenAt pw tokens (c :: rest) with
    | some t =>
      reSubWordF tokens fuel (wordChar (t.getLastD 'x')) ((c :: rest).drop t.length)
    | none => c :: reSubWordF tokens fuel (wordChar c) rest

/-- The token-removal substitution over the whole text. -/
def reSubWord (tokens : List Str) (pw : Bool) (cs : Str) : Str :=
  reSubWordF tokens cs.length pw cs


/-! ### `normalise_text` -/

/-- Letters of the four collapsed acronyms. -/
def sarlLetters : List Char := ['s', 'a', 'r', 'l']

/-- Letters of the `s.p.a` acronym. -/
def spaLetters : List Char := ['s', 'p', 'a']

/-- Letters of the `b.v` acronym. -/
def bvLetters : List Char := ['b', 'v']

/-- Letters of the `g.m.b.h` acronym. -/
def gmbhLetters : List Char := ['g', 'm', 'b', 'h']

/-- `normalise_text` from `roe_common_functions.py`, parameterised by the
configured token list (`TOKENS_TO_REMOVE`): accent folding and
lowercasing, the four acronym-collapsing substitutions, deletion of
punctuation (`[^a-z0-9\s]+` replaced by nothing, merging adjacent letter
groups), word-boundary removal of the configured tokens, deletion of all
whitespace, and a final strip. -/
def normalise_text (tokens : List Str) (text : Str) : Str :=
  let t1 := lowerFold text
  let t2 := subAcr sarlLetters t1
  let t3 := subAcr spaLetters t2
  let t4 := subAcr bvLetters t3
  let t5 := subAcr gmbhLetters t4
  let t6 := t5.filter keepChar
  let t7 := reSubWord tokens false t6
  let t8 := t7.filter (fun c => !(isPySpace c))
  pyStrip t8

/-- Modelled from the spec: the configured word list
`data_creator/words_to_ignore_in_names.txt` read by `load_tokens` is not
part of the sources; the spec describes it as a dictionary of
legal/corporate boilerplate tokens (the acronym examples `s.a.r.l`,
`s.p.a`, `b.v`, `g.m.b.h` are collapsed so that the fused tokens can be
stripped, and the `S.A.` example names the `sa` suffix), applied
longest-token-first as `load_tokens` sorts it. -/
def TOKENS_TO_REMOVE : List Str :=
  [str "limited", str "sarl", str "gmbh", str "ltd", str "plc",
   str "spa", str "sa", str "bv"]

/-- `_token_set` from `roe_2_find_BOs.py`:
`set(normalise_text(text).split())`, the set represented by the list of
its (whitespace-separated) fields. -/
def token_set (tokens : List Str) (text : Str) : List Str :=
  pySplit (normalise_text tokens text)

/-- Equality of Python sets built from two lists: same members. -/
def tokenSetEq (a b : List Str) : Bool :=
  a.all (fun x => b.contains x) && b.all (fun x => a.contains x)

/-! ### Fuzzy matching (`rapidfuzz.fuzz.ratio`)

`fuzz.ratio(s, t)` is the normalised indel similarity
`100 * (1 - dist / (|s| + |t|))` where `dist = |s| + |t| - 2 * lcs(s, t)`,
so `ratio(s, t) ≥ th` is the exact rational comparison
`200 * lcs(s, t) ≥ th * (|s| + |t|)` (both empty strings score 100). -/

/-- One row update of the longest-common-subsequence table:
`diag` is the entry above-left, `left` the entry to the left in the new
row, `old` the remaining entries of the previous row. -/
def lcsRow (x : Char) : Str → Nat → Nat → List Nat → List Nat
  | [], _, _, _ => []
  | y :: ys, diag, left, old =>
    let up := old.headD 0
    let cur := if y = x then diag + 1 else max left up
    cur :: lcsRow x ys up cur old.tail

/-- Length of the longest common subsequence of two strings. -/
def lcsLen (xs ys : Str) : Nat :=
  (xs.foldl
    (fun row x => 0 :: lcsRow x ys (row.headD 0) 0 row.tail)
    (List.replicate (ys.length + 1) 0)).getLastD 0

/-- `fuzz.ratio(s, t) >= th` as an exact rational comparison. -/
def fuzzGE (th : Nat) (s t : Str) : Bool :=
  decide (th * (s.length + t.length) ≤ 200 * lcsLen s t)

/-- The UK spellings and aliases from `is_uk_a_fuzzy_match`. -/
def uk_terms : List Str :=
  [str "uk", str "england", str "english", str "scotland", str "wales",
   str "northern ireland", str "united kingdom", str "england and wales",
   str "england & wales", str "united kingdom (england and wales)",
   str "uk and wales", str "united kingdom england", str "u.k",
   str "england, uk", str "scotland united kingdom", str "gbeng",
   str "gbsct", str "great britain", str "united kingdom (scotland)",
   str "london", str "gbr", str "cardiff", str "e&w",
   str "england, united kingdom", str "britain", str "uk/england",
   str "cardiff, wales", str "uk/scotland", str "gb",
   str "companies house", str "n. ireland", str "edinburgh",
   str "uk, yorkshire", str "companies house - registrar of companies",
   str "northern ireland, united kingdom", str "london, england",
   str "belfast", str "eng", str "u k", str "england and wales, england",
   str "west yorkshire", str "english law"]

/-- `is_uk_a_fuzzy_match` from `roe_5_categorise_BOs.py`: lowercase,
delete `"registered in"`, strip, then fuzzy-compare against each UK term
at the given threshold (85 at every call site). -/
def is_uk_a_fuzzy_match (country : Str) (threshold : Nat) : Bool :=
  let normalised := pyStrip (pyReplaceDel (str "registered in") (pyLowerStr country))
  uk_terms.any (fun term => fuzzGE threshold normalised term)


/-! ### The entity resolver (`get_company_details`)

The HTTP client is modelled by a function consuming the list of responses
the registry returns, one response per issued request; the number of
consumed responses counts the HTTP requests.  A run that exhausts the
response list while still retrying yields `none` (the Python loop would
be sleeping and retrying). -/

/-- One item of a registry name-search page (`data['items'][k]`). -/
structure SearchItem where
  company_type : Option Str
  title : Option Str
  company_number : Option Str
  address_snippet : Option Str
  company_status : Option Str
  snippet : Option Str
deriving DecidableEq

/-- The tuple `(title, company_number, address_snippet, company_status)`
returned by `get_company_details` (each member may be `None`). -/
abbrev CompanyDetails :=
  Option Str × Option Str × Option Str × Option Str

/-- The result tuple built from a matched search item. -/
def itemTuple (it : SearchItem) : CompanyDetails :=
  (it.title, it.company_number, it.address_snippet, it.company_status)

/-- `is_strong_roe`: the item is a `registered-overseas-entity` and its
normalised title equals the normalised query exactly, or has an identical
token set (and the query is non-empty). -/
def is_strong_roe (tokens : List Str) (item : SearchItem) (norm_query : Str) :
    Bool × String :=
  if item.company_type ≠ some (str "registered-overseas-entity") then (false, "")
  else
    let title := item.title.getD []
    let norm_title := normalise_text tokens title
    if norm_title = norm_query then (true, "exact name + ROE")
    else if tokenSetEq (token_set tokens title) (pySplit norm_query)
            && !(norm_query.isEmpty) then
      (true, "token-set equal + ROE")
    else (false, "")

/-- `is_strong_oversea`: the same test for the `oversea-company` type. -/
def is_strong_oversea (tokens : List Str) (item : SearchItem) (norm_query : Str) :
    Bool × String :=
  if item.company_type ≠ some (str "oversea-company") then (false, "")
  else
    let title := item.title.getD []
    let norm_title := normalise_text tokens title
    if norm_title = norm_query then (true, "exact name + oversea-company")
    else if tokenSetEq (token_set tokens title) (pySplit norm_query)
            && !(norm_query.isEmpty) then
      (true, "token-set equal + oversea-company")
    else (false, "")

/-- The fallback update of the loop body: remember the first strong
oversea-company seen, replacing it only when a later exact-name match
beats a token-set-only current one (`exact_bonus > current_bonus`). -/
def updateOversea (tokens : List Str) (nq : Str)
    (st : Option (SearchItem × String)) (items : List SearchItem) :
    Option (SearchItem × String) :=
  items.foldl
    (fun st it =>
      let pr := is_strong_oversea tokens it nq
      if pr.fst then
        match st with
        | none => some (it, pr.snd)
        | some (cur, r0) =>
          let exact_bonus : Nat := if containsSub (str "exact name") pr.snd.data then 1 else 0
          let current_bonus : Nat := if (str "exact").isPrefixOf r0.data then 1 else 0
          if exact_bonus > current_bonus then some (it, pr.snd) else some (cur, r0)
      else st)
    st

/-- The previous-name fallback over the first page: the snippet is split
on the `'·'` separator and each stripped part is compared for exact
normalised equality with the query, accepting only overseas types. -/
def snippet_prev_match (tokens : List Str) (nq : Str) (item : SearchItem) : Bool :=
  let sn := item.snippet.getD []
  (!(sn.isEmpty)) &&
  ((splitOnChar (Char.ofNat 183) sn).any
    (fun p => nq = normalise_text tokens (pyStrip p))) &&
  (item.company_type = some (str "registered-overseas-entity") ||
   item.company_type = some (str "oversea-company"))

/-- What `get_company_details` returns once the pagination loop breaks:
the best strong oversea-company if any, else the previous-name snippet
fallback on the first page, else a definitive negative result. -/
def finishSearch (tokens : List Str) (nq : Str)
    (fb : Option (SearchItem × String)) (firstItems : List SearchItem) :
    CompanyDetails :=
  match fb with
  | some (it, _) => itemTuple it
  | none =>
    match firstItems.find? (snippet_prev_match tokens nq) with
    | some it => itemTuple it
    | none => (none, none, none, none)

/-- An HTTP response: a parsed 200 body, or a bare status code. -/
inductive HResp (α : Type) where
  | ok (body : α)
  | status (code : Nat)
deriving DecidableEq

/-- The search loop of `get_company_details` over the responses the
registry produces, with the loop state made explicit: `isFirst` says
whether the next successful page is page 0, `firstItems` is the saved
first page, `fb` the provisional oversea-company fallback, and `n` the
number of requests issued so far.  The page test `len < items_per_page`
uses the configured page size 100.  A 200 page is scanned for a strong
ROE match (returned immediately), a 416 breaks to the fallback, a 404
returns the definitive negative result, and every other status (including
403) retries by consuming the next response. -/
def search_fetch (tokens : List Str) (nq : Str) :
    List (HResp (List SearchItem)) → Bool → List SearchItem →
    Option (SearchItem × String) → Nat → Option (CompanyDetails × Nat)
  | [], _, _, _, _ => none
  | .ok items :: rest, isFirst, firstItems, fb, n =>
    let firstItems1 := if isFirst then items else firstItems
    match items.find? (fun it => (is_strong_roe tokens it nq).fst) with
    | some it => some (itemTuple it, n + 1)
    | none =>
      let fb1 := updateOversea tokens nq fb items
      if items.length < 100 then
        some (finishSearch tokens nq fb1 firstItems1, n + 1)
      else search_fetch tokens nq rest false firstItems1 fb1 (n + 1)
  | .status code :: rest, isFirst, firstItems, fb, n =>
    if code = 416 then some (finishSearch tokens nq fb firstItems, n + 1)
    else if code = 404 then some ((none, none, none, none), n + 1)
    else search_fetch tokens nq rest isFirst firstItems fb (n + 1)

/-- `get_company_details` without the cache: normalise the query and run
the search loop from its initial state. -/
def get_company_details_http (tokens : List Str) (company_name : Str)
    (resps : List (HResp (List SearchItem))) : Option (CompanyDetails × Nat) :=
  search_fetch tokens (normalise_text tokens company_name) resps true [] none 0

/-- The `proprietor_cache` module dictionary, keyed by normalised name. -/
abbrev PropCache := List (Str × CompanyDetails)

/-- Dictionary lookup (`norm_query in proprietor_cache`). -/
def lookupCache (key : Str) : PropCache → Option CompanyDetails
  | [] => none
  | (k, v) :: rest => if k = key then some v else lookupCache key rest

/-- `get_company_details` with the cache made explicit: a hit returns the
cached value with no HTTP request; a miss runs the search and stores the
result (positive or negative) under the normalised name before returning.
The returned number counts the HTTP requests issued by this call. -/
def get_company_details_cached (tokens : List Str) (company_name : Str)
    (resps : List (HResp (List SearchItem))) (cache : PropCache) :
    Option (CompanyDetails × PropCache × Nat) :=
  let nq := normalise_text tokens company_name
  match lookupCache nq cache with
  | some v => some (v, cache, 0)
  | none =>
    match get_company_details_http tokens company_name resps with
    | some (r, n) => some (r, (nq, r) :: cache, n)
    | none => none


/-! ### Beneficial-owner retrieval (`roe_2_find_BOs.py`) -/

/-- A dynamically typed value as read from the registry JSON: the ceased
markers can be missing/null, booleans, numbers or strings (a numeric
value is modelled by its integer; the claims do not depend on fractional
values). -/
inductive PyVal where
  | vNone
  | vBool (b : Bool)
  | vInt (n : Int)
  | vStr (s : Str)
deriving DecidableEq

/-- Python truthiness of a `PyVal`. -/
def pyTruthy : PyVal → Bool
  | .vNone => false
  | .vBool b => b
  | .vInt n => decide (n ≠ 0)
  | .vStr s => !(s.isEmpty)

/-- An address block from the registry (profile offices and controller
addresses). -/
structure Addr where
  premises : Option Str
  address_line_1 : Option Str
  address_line_2 : Option Str
  address_line_3 : Option Str
  locality : Option Str
  region : Option Str
  postal_code : Option Str
  country : Option Str
deriving DecidableEq

/-- A controller (PSC) item from the registry's controller list. -/
structure BO where
  name : Option Str
  ceased : PyVal
  ceased_on : PyVal
  ceased_date : PyVal
  kind : Option Str
  address : Option Addr
  is_sanctioned : PyVal
  natures_of_control : List Str
deriving DecidableEq

/-- `is_ceased_beneficial_owner`: treat non-empty strings (including
dates), non-zero numbers or `True` as ceased; `bo.get('ceased')` falls
back to `bo.get('ceased_on') or bo.get('ceased_date')` when missing. -/
def is_ceased_beneficial_owner (bo : BO) : Bool :=
  let value :=
    match bo.ceased with
    | .vNone => if pyTruthy bo.ceased_on then bo.ceased_on else bo.ceased_date
    | v => v
  match value with
  | .vNone => false
  | .vBool b => b
  | .vInt n => decide (n ≠ 0)
  | .vStr s =>
    let v := pyLowerStr (pyStrip s)
    !(v = [] || v = str "0" || v = str "false" || v = str "no" ||
      v = str "none" || v = str "null")

/-- A company profile (`get_company_profile` body): the entity type and
the two office address blocks used by `pick_company_address`. -/
structure Profile where
  type_ : Option Str
  principal_office_address : Option Addr
  registered_office_address : Option Addr
deriving DecidableEq

/-- `format_address`: join the present, non-empty address parts with
commas, giving `None` when nothing remains. -/
def format_address (a : Option Addr) : Option Str :=
  match a with
  | none => none
  | some ad =>
    let parts := ([ad.premises, ad.address_line_1, ad.address_line_2,
                   ad.locality, ad.region, ad.postal_code,
                   ad.country].filterMap id).filter (fun p => !(p.isEmpty))
    if parts.isEmpty then none else some (joinComma parts)

/-- `pick_company_address`: for `registered-overseas-entity` profiles
prefer the principal office, then the registered office, then the search
snippet; for everything else the registered office then the snippet. -/
def pick_company_address (profile : Option Profile) (company_type : Str)
    (snippet : Option Str) : Option Str :=
  match profile with
  | none => snippet
  | some p =>
    if company_type = str "registered-overseas-entity" ∨
       p.type_ = some (str "registered-overseas-entity") then
      ((format_address p.principal_office_address).orElse
        (fun _ => format_address p.registered_office_address)).orElse
        (fun _ => snippet)
    else
      (format_address p.registered_office_address).orElse (fun _ => snippet)

/-- `get_company_profile` over the responses the registry produces: a 200
returns the profile, a 404 or 403 returns `None` without retrying, and
every other status retries on the next response. -/
def get_company_profile_fetch : List (HResp Profile) → Nat →
    Option (Option Profile × Nat)
  | [], _ => none
  | .ok p :: _, n => some (some p, n + 1)
  | .status code :: rest, n =>
    if code = 404 ∨ code = 403 then some (none, n + 1)
    else get_company_profile_fetch rest (n + 1)

/-- `get_BO_list` over the responses the registry produces: a 200 returns
the body's items, a 404 or 403 returns the empty item list without
retrying, and every other status retries on the next response. -/
def get_BO_list_fetch : List (HResp (List BO)) → Nat →
    Option (List BO × Nat)
  | [], _ => none
  | .ok items :: _, n => some (items, n + 1)
  | .status code :: rest, n =>
    if code = 404 ∨ code = 403 then some ([], n + 1)
    else get_BO_list_fetch rest (n + 1)

/-- The result tuple of `find_BOs_for_company`:
`(status, bos, chosen_address, company_number)`. -/
structure FindBOsResult where
  status : Str
  bos : List BO
  address : Option Str
  number : Option Str
deriving DecidableEq

/-- The pure core of `find_BOs_for_company`, given the resolver tuple, the
fetched profile and the fetched controller items: a falsy company number
yields `'No company found'`; otherwise a non-empty item list yields
`'OK'` with all fetched items, and an empty one yields `'No BO'`. -/
def find_BOs_core (details : CompanyDetails) (profile : Option Profile)
    (items : List BO) : FindBOsResult :=
  let num := details.snd.fst
  if num = none ∨ num = some [] then
    { status := str "No company found", bos := [], address := none, number := none }
  else
    let company_type := (profile.bind Profile.type_).getD []
    let chosen_addr := pick_company_address profile company_type details.snd.snd.fst
    if items.isEmpty then
      { status := str "No BO", bos := [], address := chosen_addr, number := num }
    else
      { status := str "OK", bos := items, address := chosen_addr, number := num }

/-- The per-proprietor loop body of `process_all_records` that filters
ceased controllers: `active_bos` starts empty and each non-ceased
controller is appended in registry order. -/
def active_bos (bos : List BO) : List BO :=
  bos.foldl (fun acc bo => if is_ceased_beneficial_owner bo then acc else acc ++ [bo]) []

/-- The fields of one proprietor's row update written by
`process_all_records` after `find_BOs_for_company` returns: on `'OK'` the
first four active controllers fill the BO slots and the failure column
stays cleared; on any other status the failure column records it and no
slots are filled.  The company number is recorded whenever truthy. -/
structure PropUpdate where
  slots : List BO
  failure : Option Str
  number : Option Str
deriving DecidableEq

/-- Build the row update from a `find_BOs_for_company` result. -/
def process_proprietor_update (r : FindBOsResult) : PropUpdate :=
  { slots := if r.status = str "OK" then (active_bos r.bos).take 4 else []
  , failure := if r.status = str "OK" then none else some r.status
  , number := if r.number = none ∨ r.number = some [] then none else r.number }

/-! ### Classification (`roe_5_categorise_BOs.py`) -/

/-- The shared read-only reference data of the classification phase,
together with the normaliser's token list. -/
structure RefData where
  tokens : List Str
  all_listed_companies : List Str
  normalised_government_companies : List Str
  manual_exclusions : List Str

/-- `is_listed_company` (threshold 95): a falsy name never matches;
otherwise the normalised name is fuzzy-compared against the listed set
and a match at or above the cutoff counts (`process.extractOne` with
`score_cutoff` returns an entry exactly when one scores at least it). -/
def is_listed_company (R : RefData) (company_name : Option Str) : Bool :=
  match company_name with
  | none => false
  | some n =>
    if n.isEmpty then false
    else R.all_listed_companies.any
      (fun c => fuzzGE 95 (normalise_text R.tokens n) c)

/-- `is_it_excluded`: exact membership of the normalised name in the
manual-exclusion list (a missing name normalises to the empty string). -/
def is_it_excluded (R : RefData) (company_name : Option Str) : Bool :=
  (R.manual_exclusions).contains (normalise_text R.tokens (company_name.getD []))

/-- `is_government_owned` (threshold 95): a falsy name never matches; the
literal substring pre-check for `"government"`, `"central bank"` and
`"investment authority"` on the lowercased raw name short-circuits,
otherwise the normalised name is fuzzy-compared against the
government-owned set. -/
def is_government_owned (R : RefData) (company_name : Option Str) : Bool :=
  match company_name with
  | none => false
  | some n =>
    if n.isEmpty then false
    else if containsSub (str "government") (pyLowerStr n) ||
            containsSub (str "central bank") (pyLowerStr n) ||
            containsSub (str "investment authority") (pyLowerStr n) then true
    else R.normalised_government_companies.any
      (fun c => fuzzGE 95 (normalise_text R.tokens n) c)

/-- The stored `legal_form` column: NULL/empty, a string `json.loads`
rejects (`json.JSONDecodeError` is swallowed and the UK flag stays
unset), or the parsed identification block with its three optional
fields. -/
inductive LFVal where
  | missing
  | malformed
  | parsed (legal_authority country_registered place_registered : Option Str)
deriving DecidableEq

/-- Parse one single-quoted Python string literal (`'...'` with no
escapes: the nature-of-control codes are hyphenated ASCII words),
returning the content and the rest. -/
def parseStrLit : Str → Option (Str × Str)
  | [] => none
  | c :: rest =>
    if c = '\'' then
      let content := rest.takeWhile (fun d => d ≠ '\'')
      match rest.drop content.length with
      | [] => none
      | _ :: after => some (content, after)
    else none

/-- Parse the comma-separated string literals of a Python list literal,
after the opening bracket of a non-empty list; the fuel bounds the
recursion by the input length. -/
def parseItemsAux : Nat → Str → Option (List Str)
  | 0, _ => none
  | fuel + 1, cs =>
    match parseStrLit (cs.dropWhile isPySpace) with
    | none => none
    | some (s, rest) =>
      match rest.dropWhile isPySpace with
      | ']' :: after =>
        if (after.dropWhile isPySpace).isEmpty then some [s] else none
      | ',' :: after =>
        match parseItemsAux fuel after with
        | some l => some (s :: l)
        | none => none
      | _ => none

/-- `ast.literal_eval` restricted to the shape that
`str(bo.get('natures_of_control', ''))` stores for the rows this stage
classifies: a Python list literal of single-quoted strings
(`"['a', 'b']"`, `"[]"`).  Everything else fails, which
`process_bo_status` turns into the fatal `RuntimeError`. -/
def parse_natures (cs : Str) : Option (List Str) :=
  match cs.dropWhile isPySpace with
  | '[' :: rest =>
    match rest.dropWhile isPySpace with
    | ']' :: after => if (after.dropWhile isPySpace).isEmpty then some [] else none
    | _ => parseItemsAux (cs.length + 1) rest
  | _ => none

/-- The fatal error raised on malformed nature-of-control data:
`RuntimeError(f"Invalid natures_of_control for title {title} "
f"(proprietor{i} BO{j}): {raw!r}")`, carried structurally. -/
structure RowError where
  title : Str
  propIndex : Nat
  boIndex : Nat
  raw : Str
deriving DecidableEq

/-- One stored beneficial-owner cell of a row
(`proprietor{i}_BO{j}_...` columns). -/
structure BOCell where
  kind : Option Str
  address : Option Str
  legal_form : LFVal
  latlon : Option Str
  natures_of_control : Option Str
  name : Option Str
deriving DecidableEq

/-- The corporate/legal-entity kinds of the classification branch. -/
def corporateKinds : List Str :=
  [str "corporate-entity-person-with-significant-control",
   str "corporate-entity-beneficial-owner",
   str "legal-person-beneficial-owner"]

/-- The excluded-jurisdiction address suffixes. -/
def excluded_terms : List Str :=
  [str "jersey", str "isle of man", str "guernsey", str "netherlands"]

/-- The nature-of-control marker designating trusteeship. -/
def controls_as_trust_string : Str := str "-as-trust-"

/-- Does the lowercased, stripped address end in an excluded suffix? -/
def addressExcluded (address : Option Str) : Bool :=
  excluded_terms.any
    (fun term => term.isSuffixOf (pyStrip (pyLowerStr (address.getD []))))

/-- The UK test via legal-form metadata: any of the three fields present,
non-empty, and a fuzzy UK match at threshold 85. -/
def legalFormUK (lf : LFVal) : Bool :=
  match lf with
  | .parsed a c p =>
    ((!(a.getD []).isEmpty) && is_uk_a_fuzzy_match (a.getD []) 85) ||
    ((!(c.getD []).isEmpty) && is_uk_a_fuzzy_match (c.getD []) 85) ||
    ((!(p.getD []).isEmpty) && is_uk_a_fuzzy_match (p.getD []) 85)
  | _ => false

/-- Classify one stored beneficial-owner cell, as the `j` loop body of
`process_bo_status` does: a falsy kind produces no status; individual and
super-secure kinds map directly; corporate kinds run the address-suffix
guard, the legal-form UK test, the geospatial fallback (the float parse
and the shapely point-in-polygon test are modelled by the `geo` oracle,
skipped when `skip_geo`), the nature-of-control parse (malformed
non-empty data raises the identified `RowError`), and the tiered
UK/listed/government/manual/trustee/suspect decision; any other non-empty
kind keeps the default `"suspect"`. -/
def process_bo_cell (R : RefData) (skip_geo : Bool) (geo : Str → Bool)
    (title : Str) (i j : Nat) (cell : BOCell) :
    Except RowError (Option Str) :=
  match cell.kind with
  | none => .ok none
  | some k0 =>
    if k0.isEmpty then .ok none
    else
      let k := pyStrip k0
      if k = str "individual-beneficial-owner" then .ok (some (str "individual"))
      else if k = str "super-secure-beneficial-owner" then .ok (some (str "super-secure"))
      else if corporateKinds.contains k then
        let in_uk :=
          if addressExcluded cell.address then false
          else if legalFormUK cell.legal_form then true
          else if !skip_geo then
            match cell.latlon with
            | some ll => geo ll
            | none => false
          else false
        let naturesParse : Except RowError (List Str) :=
          match cell.natures_of_control with
          | none => .ok []
          | some ns =>
            if ns.isEmpty then .ok []
            else
              match parse_natures ns with
              | some l => .ok l
              | none => .error { title := title, propIndex := i, boIndex := j, raw := ns }
        match naturesParse with
        | .error e => .error e
        | .ok natures =>
          let trustee_control := natures.any (fun s => containsSub controls_as_trust_string s)
          let status :=
            if in_uk then str "UK"
            else if is_listed_company R cell.name then str "listed"
            else if is_government_owned R cell.name then str "government-owned"
            else if is_it_excluded R cell.name then str "manually checked"
            else if trustee_control then str "trustee"
            else str "suspect"
          .ok (some status)
      else .ok (some (str "suspect"))

/-- One proprietor of a row: its name, its stored failure column and its
four beneficial-owner cells. -/
structure PropRow where
  name : Option Str
  bo_failure : Option Str
  bos : List BOCell
deriving DecidableEq

/-- A row of the `entities` table as `process_bo_status` reads it. -/
structure RowData where
  property_title_number : Str
  props : List PropRow

/-- The 'No BO' reclassification of a proprietor: when the failure column
holds `'No BO'` and the proprietor itself is listed, government-owned or
manually excluded, the failure column is cleared. -/
def reclassifyNoBO (R : RefData) (p : PropRow) : Bool :=
  p.bo_failure = some (str "No BO") &&
    (is_listed_company R p.name || is_government_owned R p.name ||
     is_it_excluded R p.name)

/-- Process the beneficial-owner cells of one proprietor in order,
collecting `(j, reg_status)` assignments and propagating the first
error. -/
def process_cells (R : RefData) (skip_geo : Bool) (geo : Str → Bool)
    (title : Str) (i : Nat) : Nat → List BOCell →
    Except RowError (List (Nat × Str))
  | _, [] => .ok []
  | j, cell :: rest =>
    match process_bo_cell R skip_geo geo title i j cell with
    | .error e => .error e
    | .ok none =>
      process_cells R skip_geo geo title i (j + 1) rest
    | .ok (some s) =>
      match process_cells R skip_geo geo title i (j + 1) rest with
      | .error e => .error e
      | .ok l => .ok ((j, s) :: l)

/-- Process the proprietors of a row in order: the cleared-failure
indices and the `(i, j, reg_status)` assignments, with the first error
aborting the whole row. -/
def process_props (R : RefData) (skip_geo : Bool) (geo : Str → Bool)
    (title : Str) : Nat → List PropRow →
    Except RowError (List Nat × List (Nat × Nat × Str))
  | _, [] => .ok ([], [])
  | i, p :: rest =>
    let cleared := reclassifyNoBO R p
    match process_cells R skip_geo geo title i 1 p.bos with
    | .error e => .error e
    | .ok sts =>
      match process_props R skip_geo geo title (i + 1) rest with
      | .error e => .error e
      | .ok (cl, as0) =>
        .ok ((if cleared then [i] else []) ++ cl,
             (sts.map (fun js => (i, js.fst, js.snd))) ++ as0)

/-- `process_bo_status` on one row: the indices whose `BO_failure` column
is cleared by the 'No BO' reclassification, and the `reg_status`
assignments, or the first fatal `RowError` (the exclusion counters it
also returns are the tallies of the corresponding statuses and are not
modelled separately). -/
def process_bo_status (R : RefData) (skip_geo : Bool) (geo : Str → Bool)
    (row : RowData) : Except RowError (List Nat × List (Nat × Nat × Str)) :=
  process_props R skip_geo geo row.property_title_number 1 row.props


/-! ## Theorems for the claims -/

/-- The appending loop over the controller list is the filter of the
non-ceased controllers, in order. -/
theorem active_bos_foldl (bos acc : List BO) :
    bos.foldl (fun acc bo => if is_ceased_beneficial_owner bo then acc else acc ++ [bo]) acc
      = acc ++ bos.filter (fun bo => !(is_ceased_beneficial_owner bo)) := by
  induction bos generalizing acc with
  | nil => simp
  | cons b bs ih =>
    simp only [List.foldl_cons, List.filter_cons]
    by_cases hb : is_ceased_beneficial_owner b
    · simp [hb, ih]
    · simp [hb, ih]

theorem active_bos_eq_filter (bos : List BO) :
    active_bos bos = bos.filter (fun bo => !(is_ceased_beneficial_owner bo)) := by
  simpa using active_bos_foldl bos []

/-- Sample controller records of the registry. -/
def sampleCeasedBO : BO :=
  { name := some (str "Former Owner Ltd"), ceased := .vStr (str "2023-01-01")
  , ceased_on := .vNone, ceased_date := .vNone
  , kind := some (str "corporate-entity-beneficial-owner"), address := none
  , is_sanctioned := .vNone, natures_of_control := [] }

/-- An active sample controller. -/
def sampleActiveBO : BO :=
  { name := some (str "Current Owner Ltd"), ceased := .vNone
  , ceased_on := .vNone, ceased_date := .vNone
  , kind := some (str "corporate-entity-beneficial-owner"), address := none
  , is_sanctioned := .vNone, natures_of_control := [str "ownership-of-shares-75-to-100-percent"] }

/-- C1: for a proprietor whose resolution status is `'OK'`, the stored
beneficial-owner slots are exactly the first four non-ceased controllers
of the fetched controller list in registry order — every controller for
which `is_ceased_beneficial_owner` holds is removed before the four-item
cap — so a ceased controller never occupies a stored slot. -/
theorem stored_bo_slots_first_four_active (r : FindBOsResult)
    (h : r.status = str "OK") :
    (process_proprietor_update r).slots
      = (r.bos.filter (fun bo => !(is_ceased_beneficial_owner bo))).take 4 ∧
    ∀ bo ∈ (process_proprietor_update r).slots,
      is_ceased_beneficial_owner bo = false := by
  have hslots : (process_proprietor_update r).slots
      = (r.bos.filter (fun bo => !(is_ceased_beneficial_owner bo))).take 4 := by
    simp [process_proprietor_update, h, active_bos_eq_filter]
  refine ⟨hslots, ?_⟩
  intro bo hm
  rw [hslots] at hm
  have hfil : bo ∈ r.bos.filter (fun bo => !(is_ceased_beneficial_owner bo)) :=
    List.take_subset _ _ hm
  have := List.of_mem_filter hfil
  simpa using this

/-- Witness for C1 on a concrete resolution result holding one ceased and
one active controller. -/
theorem stored_bo_slots_first_four_active_witness :
    (FindBOsResult.mk (str "OK") [sampleCeasedBO, sampleActiveBO] none
        (some (str "OE000001"))).status = str "OK" ∧
    ((process_proprietor_update (FindBOsResult.mk (str "OK")
        [sampleCeasedBO, sampleActiveBO] none (some (str "OE000001")))).slots
      = ([sampleCeasedBO, sampleActiveBO].filter
          (fun bo => !(is_ceased_beneficial_owner bo))).take 4 ∧
     ∀ bo ∈ (process_proprietor_update (FindBOsResult.mk (str "OK")
        [sampleCeasedBO, sampleActiveBO] none (some (str "OE000001")))).slots,
       is_ceased_beneficial_owner bo = false) :=
  ⟨rfl, stored_bo_slots_first_four_active _ rfl⟩

/-- A resolver tuple for a successfully resolved company. -/
def resolvedDetails : CompanyDetails :=
  (some (str "Example Overseas Ltd"), some (str "OE000001"),
   some (str "1 Example Street, Exampleton"), some (str "registered"))

/-- C2, counterexample: a proprietor that resolves and whose fetched
controller list holds exactly one controller, which is ceased, gets
status `'OK'` from `find_BOs_for_company` — not the `'No BO'` failure the
claim requires for zero active controllers — because the status test uses
the raw item list before ceased filtering. -/
theorem all_ceased_status_ok_counterexample :
    is_ceased_beneficial_owner sampleCeasedBO = true ∧
    (find_BOs_core resolvedDetails none [sampleCeasedBO]).status = str "OK" ∧
    (find_BOs_core resolvedDetails none [sampleCeasedBO]).status ≠ str "No BO" := by
  refine ⟨by decide, by decide, by decide⟩

/-- C2, amended: a resolved proprietor gets `'No BO'` (distinct from
`'No company found'`) exactly when the fetched controller list is empty;
when the registry returns controllers that are all ceased the status is
`'OK'`, no failure is recorded and no slot is stored — and a stored row
with no BO kind never receives any classification, so such owners are
still never classified `'suspect'`. -/
theorem no_bo_status_amended (details : CompanyDetails)
    (profile : Option Profile) (items : List BO)
    (hnum : ¬(details.snd.fst = none ∨ details.snd.fst = some [])) :
    (items = [] →
      (find_BOs_core details profile items).status = str "No BO" ∧
      (str "No BO" : Str) ≠ str "No company found" ∧
      (process_proprietor_update (find_BOs_core details profile items)).failure
        = some (str "No BO")) ∧
    (items ≠ [] → (∀ bo ∈ items, is_ceased_beneficial_owner bo = true) →
      (find_BOs_core details profile items).status = str "OK" ∧
      (process_proprietor_update (find_BOs_core details profile items)).slots = [] ∧
      (process_proprietor_update (find_BOs_core details profile items)).failure = none) ∧
    (∀ R sg geo t i j addr lf ll nats nm,
      process_bo_cell R sg geo t i j
        (BOCell.mk none addr lf ll nats nm) = .ok none) := by
  refine ⟨?_, ?_, ?_⟩
  · intro hitems
    subst hitems
    have hres : (find_BOs_core details profile []).status = str "No BO" := by
      simp [find_BOs_core, hnum]
    refine ⟨hres, by decide, ?_⟩
    simp only [process_proprietor_update, hres]
    rw [if_neg (by decide)]
  · intro hne hall
    have hres : (find_BOs_core details profile items).status = str "OK" := by
      simp [find_BOs_core, hnum, List.isEmpty_iff, hne]
    have hbos : (find_BOs_core details profile items).bos = items := by
      simp [find_BOs_core, hnum, List.isEmpty_iff, hne]
    refine ⟨hres, ?_, ?_⟩
    · have hfil : items.filter (fun bo => !(is_ceased_beneficial_owner bo)) = [] := by
        rw [List.filter_eq_nil_iff]
        intro bo hbo
        simp [hall bo hbo]
      simp [process_proprietor_update, hres, active_bos_eq_filter, hbos, hfil]
    · simp [process_proprietor_update, hres]
  · intro R sg geo t i j addr lf ll nats nm
    rfl

/-- Witness for C2's amended theorem at a concrete resolved company with
an empty controller list and with an all-ceased controller list. -/
theorem no_bo_status_amended_witness :
    (¬(resolvedDetails.snd.fst = none ∨ resolvedDetails.snd.fst = some [])) ∧
    (([] : List BO) = [] →
      (find_BOs_core resolvedDetails none []).status = str "No BO" ∧
      (str "No BO" : Str) ≠ str "No company found" ∧
      (process_proprietor_update (find_BOs_core resolvedDetails none [])).failure
        = some (str "No BO")) :=
  ⟨by decide, fun h => ((no_bo_status_amended resolvedDetails none [] (by decide)).1) h⟩


/-- A stored cell with corporate kind and non-empty nature-of-control
data that fails structured parsing. -/
def malformedNaturesCell (cell : BOCell) : Bool :=
  match cell.kind, cell.natures_of_control with
  | some k0, some ns =>
    (!(k0.isEmpty)) && corporateKinds.contains (pyStrip k0) &&
    (!(ns.isEmpty)) && (parse_natures ns).isNone
  | _, _ => false

/-- A corporate cell with malformed non-empty natures data makes the cell
classifier raise the identified error. -/
theorem process_bo_cell_malformed {R : RefData} {sg : Bool} {geo : Str → Bool}
    {t : Str} {i j : Nat} {cell : BOCell}
    (hbad : malformedNaturesCell cell = true) :
    ∃ ns, cell.natures_of_control = some ns ∧
      process_bo_cell R sg geo t i j cell =
        .error { title := t, propIndex := i, boIndex := j, raw := ns } := by
  unfold malformedNaturesCell at hbad
  cases hk : cell.kind with
  | none => rw [hk] at hbad; exact absurd hbad (by simp)
  | some k0 =>
    cases hns : cell.natures_of_control with
    | none => rw [hk, hns] at hbad; exact absurd hbad (by simp)
    | some ns =>
      rw [hk, hns] at hbad
      simp only [Bool.and_eq_true, Bool.not_eq_true', Option.isNone_iff_eq_none] at hbad
      obtain ⟨⟨⟨hk0, hcorp⟩, hne⟩, hparse⟩ := hbad
      refine ⟨ns, rfl, ?_⟩
      have hki : ¬ (pyStrip k0 = str "individual-beneficial-owner") := by
        intro hcontra; rw [hcontra] at hcorp; revert hcorp; decide
      have hks : ¬ (pyStrip k0 = str "super-secure-beneficial-owner") := by
        intro hcontra; rw [hcontra] at hcorp; revert hcorp; decide
      unfold process_bo_cell
      rw [hk]
      simp only [hk0, Bool.false_eq_true, if_false, if_neg hki, if_neg hks,
        hcorp, if_pos, if_true, hns, hne, hparse]


/-- Every error the cell classifier returns identifies a corporate cell
with malformed non-empty natures data accurately. -/
theorem process_bo_cell_error {R : RefData} {sg : Bool} {geo : Str → Bool}
    {t : Str} {i j : Nat} {cell : BOCell} {e : RowError}
    (h : process_bo_cell R sg geo t i j cell = .error e) :
    e.title = t ∧ e.propIndex = i ∧ e.boIndex = j ∧
    cell.natures_of_control = some e.raw ∧ e.raw.isEmpty = false ∧
    parse_natures e.raw = none ∧
    corporateKinds.contains (pyStrip (cell.kind.getD [])) = true ∧
    malformedNaturesCell cell = true := by
  unfold process_bo_cell at h
  cases hk : cell.kind with
  | none => rw [hk] at h; simp at h
  | some k0 =>
    rw [hk] at h
    by_cases hk0 : k0.isEmpty = true
    · simp only [hk0, if_true] at h; simp at h
    · rw [Bool.not_eq_true] at hk0
      simp only [hk0, Bool.false_eq_true, if_false] at h
      by_cases hki : pyStrip k0 = str "individual-beneficial-owner"
      · simp only [if_pos hki] at h; simp at h
      · simp only [if_neg hki] at h
        by_cases hks : pyStrip k0 = str "super-secure-beneficial-owner"
        · simp only [if_pos hks] at h; simp at h
        · simp only [if_neg hks] at h
          by_cases hkc : corporateKinds.contains (pyStrip k0) = true
          · simp only [hkc, if_true] at h
            cases hns : cell.natures_of_control with
            | none => simp only [hns] at h; simp at h
            | some ns =>
              simp only [hns] at h
              by_cases hne : ns.isEmpty = true
              · simp only [hne, if_true] at h; simp at h
              · rw [Bool.not_eq_true] at hne
                simp only [hne, Bool.false_eq_true, if_false] at h
                cases hparse : parse_natures ns with
                | some l => simp only [hparse] at h; simp at h
                | none =>
                  simp only [hparse] at h
                  rw [Except.error.injEq] at h
                  subst h
                  refine ⟨rfl, rfl, rfl, rfl, hne, hparse, ?_, ?_⟩
                  · exact hkc
                  · unfold malformedNaturesCell
                    rw [hk, hns]
                    simp only [hk0, hkc, hne, hparse]
                    simp [List.mem_of_elem_eq_true hkc]
          · simp only [hkc, Bool.false_eq_true, if_false] at h
            simp at h

/-- A row whose `'No BO'`-free classification succeeds holds no corporate
cell with malformed non-empty natures data. -/
theorem process_cells_ok_no_malformed {R : RefData} {sg : Bool}
    {geo : Str → Bool} {t : Str} {i : Nat} :
    ∀ {j : Nat} {cells : List BOCell} {l : List (Nat × Str)},
      process_cells R sg geo t i j cells = .ok l →
      ∀ cell ∈ cells, malformedNaturesCell cell = false := by
  intro j cells
  induction cells generalizing j with
  | nil => intro l _ cell hc; simp at hc
  | cons c0 cs ih =>
    intro l h cell hc
    unfold process_cells at h
    cases hres : process_bo_cell R sg geo t i j c0 with
    | error e0 => simp only [hres] at h; simp at h
    | ok s0 =>
      rcases List.mem_cons.mp hc with rfl | hc
      · by_contra hbad
        rw [Bool.not_eq_false] at hbad
        obtain ⟨ns, _, herr⟩ :=
          @process_bo_cell_malformed R sg geo t i j cell hbad
        rw [herr] at hres
        exact absurd hres (by simp)
      · cases s0 with
        | none =>
          simp only [hres] at h
          exact ih h cell hc
        | some sv =>
          simp only [hres] at h
          cases hrec : process_cells R sg geo t i (j + 1) cs with
          | error e1 => simp only [hrec] at h; simp at h
          | ok l1 => exact ih hrec cell hc

/-- An error from the cell loop comes from the cell classifier at some
position of the list, with the slot index offset accordingly. -/
theorem process_cells_error_src {R : RefData} {sg : Bool}
    {geo : Str → Bool} {t : Str} {i : Nat} :
    ∀ {j : Nat} {cells : List BOCell} {e : RowError},
      process_cells R sg geo t i j cells = .error e →
      ∃ k cell, cells.get? k = some cell ∧
        process_bo_cell R sg geo t i (j + k) cell = .error e := by
  intro j cells
  induction cells generalizing j with
  | nil => intro e h; simp [process_cells] at h
  | cons c0 cs ih =>
    intro e h
    unfold process_cells at h
    cases hres : process_bo_cell R sg geo t i j c0 with
    | error e0 =>
      simp only [hres, Except.error.injEq] at h
      subst h
      exact ⟨0, c0, rfl, by simpa using hres⟩
    | ok s0 =>
      cases s0 with
      | none =>
        simp only [hres] at h
        obtain ⟨k, cell, hg, hc⟩ := ih h
        exact ⟨k + 1, cell, by simpa using hg, by
          have : j + 1 + k = j + (k + 1) := by omega
          rw [← this]; exact hc⟩
      | some sv =>
        simp only [hres] at h
        cases hrec : process_cells R sg geo t i (j + 1) cs with
        | error e1 =>
          simp only [hrec, Except.error.injEq] at h
          subst h
          obtain ⟨k, cell, hg, hc⟩ := ih hrec
          exact ⟨k + 1, cell, by simpa using hg, by
            have : j + 1 + k = j + (k + 1) := by omega
            rw [← this]; exact hc⟩
        | ok l1 => simp only [hrec] at h; simp at h

/-- A successful row classification means no proprietor holds a corporate
cell with malformed non-empty natures data. -/
theorem process_props_ok_no_malformed {R : RefData} {sg : Bool}
    {geo : Str → Bool} {t : Str} :
    ∀ {i : Nat} {props : List PropRow} {res : List Nat × List (Nat × Nat × Str)},
      process_props R sg geo t i props = .ok res →
      ∀ p ∈ props, ∀ cell ∈ p.bos, malformedNaturesCell cell = false := by
  intro i props
  induction props generalizing i with
  | nil => intro res _ p hp; simp at hp
  | cons p0 ps ih =>
    intro res h p hp cell hc
    unfold process_props at h
    cases hcells : process_cells R sg geo t i 1 p0.bos with
    | error e0 => simp only [hcells] at h; simp at h
    | ok sts =>
      simp only [hcells] at h
      cases hrec : process_props R sg geo t (i + 1) ps with
      | error e1 => simp only [hrec] at h; simp at h
      | ok res1 =>
        rcases List.mem_cons.mp hp with rfl | hp
        · exact process_cells_ok_no_malformed hcells cell hc
        · exact ih hrec p hp cell hc

/-- An error from the row classification comes from the cell loop of some
proprietor, with the proprietor index offset accordingly. -/
theorem process_props_error_src {R : RefData} {sg : Bool}
    {geo : Str → Bool} {t : Str} :
    ∀ {i : Nat} {props : List PropRow} {e : RowError},
      process_props R sg geo t i props = .error e →
      ∃ k p, props.get? k = some p ∧
        process_cells R sg geo t (i + k) 1 p.bos = .error e := by
  intro i props
  induction props generalizing i with
  | nil => intro e h; simp [process_props] at h
  | cons p0 ps ih =>
    intro e h
    unfold process_props at h
    cases hcells : process_cells R sg geo t i 1 p0.bos with
    | error e0 =>
      simp only [hcells, Except.error.injEq] at h
      subst h
      exact ⟨0, p0, rfl, by simpa using hcells⟩
    | ok sts =>
      simp only [hcells] at h
      cases hrec : process_props R sg geo t (i + 1) ps with
      | error e1 =>
        simp only [hrec, Except.error.injEq] at h
        subst h
        obtain ⟨k, p, hg, hc⟩ := ih hrec
        exact ⟨k + 1, p, by simpa using hg, by
          have : i + 1 + k = i + (k + 1) := by omega
          rw [← this]; exact hc⟩
      | ok res1 => simp only [hrec] at h; simp at h


/-- Reference data with empty lists and the modelled token list, for
concrete evaluations. -/
def emptyRefData : RefData :=
  { tokens := TOKENS_TO_REMOVE, all_listed_companies := []
  , normalised_government_companies := [], manual_exclusions := [] }

/-- A geospatial oracle that places nothing in the UK. -/
def noGeo : Str → Bool := fun _ => false

/-- An unparsable natures-of-control value. -/
def badNaturesStr : Str := str "garbage"

/-- C4, counterexample: an *individual* beneficial owner with non-empty
nature-of-control data that fails structured parsing does not halt the
row — classification succeeds and assigns the status `'individual'` —
because the parse runs only in the corporate/legal-entity branch. -/
theorem malformed_natures_individual_counterexample :
    badNaturesStr.isEmpty = false ∧
    parse_natures badNaturesStr = none ∧
    process_bo_status emptyRefData false noGeo
      (RowData.mk (str "T1")
        [PropRow.mk none none
          [BOCell.mk (some (str "individual-beneficial-owner")) none
            .missing none (some badNaturesStr) none]])
      = .ok ([], [(1, 1, str "individual")]) := by
  refine ⟨by decide, by decide, by rfl⟩

/-- C4, amended: for every row, if any beneficial owner of
corporate/legal-entity kind has a non-empty stored natures-of-control
value that fails structured parsing, classification of the row raises an
error and halts, and the error identifies an offending record accurately:
its title is the row's property title number, its proprietor and BO
indices point at a stored corporate cell whose natures value is exactly
the error's raw value, non-empty and unparsable — the BO is never
silently assigned a default status.  (Individual and super-secure
controllers bypass the parse, which is what the counterexample shows.) -/
theorem malformed_natures_fatal_amended (R : RefData) (sg : Bool)
    (geo : Str → Bool) (row : RowData) (kp kc : Nat) (p : PropRow)
    (cell : BOCell)
    (hp : row.props.get? kp = some p)
    (hc : p.bos.get? kc = some cell)
    (hbad : malformedNaturesCell cell = true) :
    ∃ e, process_bo_status R sg geo row = .error e ∧
      e.title = row.property_title_number ∧
      ∃ kp2 p2 kc2 cell2,
        row.props.get? kp2 = some p2 ∧
        p2.bos.get? kc2 = some cell2 ∧
        e.propIndex = kp2 + 1 ∧ e.boIndex = kc2 + 1 ∧
        cell2.natures_of_control = some e.raw ∧
        e.raw.isEmpty = false ∧
        parse_natures e.raw = none ∧
        corporateKinds.contains (pyStrip (cell2.kind.getD [])) = true := by
  cases hres : process_bo_status R sg geo row with
  | ok res =>
    exfalso
    have hall := process_props_ok_no_malformed hres p (List.get?_mem hp)
      cell (List.get?_mem hc)
    rw [hbad] at hall
    exact absurd hall (by simp)
  | error e =>
    refine ⟨e, rfl, ?_, ?_⟩
    · obtain ⟨k, p2, _, hcells⟩ := process_props_error_src hres
      obtain ⟨k2, cell2, _, hcellerr⟩ := process_cells_error_src hcells
      exact (process_bo_cell_error hcellerr).1
    · obtain ⟨k, p2, hgp, hcells⟩ := process_props_error_src hres
      obtain ⟨k2, cell2, hgc, hcellerr⟩ := process_cells_error_src hcells
      obtain ⟨_, hpi, hbi, hnat, hraw, hparse, hcorp, _⟩ :=
        process_bo_cell_error hcellerr
      refine ⟨k, p2, k2, cell2, hgp, hgc, ?_, ?_, hnat, hraw, hparse, hcorp⟩
      · rw [hpi]; omega
      · rw [hbi]; omega

/-- Witness for C4's amended theorem on a concrete row with a corporate
beneficial owner whose natures value is unparsable. -/
theorem malformed_natures_fatal_amended_witness :
    ((RowData.mk (str "T2")
      [PropRow.mk none none
        [BOCell.mk (some (str "corporate-entity-beneficial-owner")) none
          .missing none (some badNaturesStr) none]]).props.get? 0
      = some (PropRow.mk none none
          [BOCell.mk (some (str "corporate-entity-beneficial-owner")) none
            .missing none (some badNaturesStr) none])) ∧
    (∃ e, process_bo_status emptyRefData false noGeo
        (RowData.mk (str "T2")
          [PropRow.mk none none
            [BOCell.mk (some (str "corporate-entity-beneficial-owner")) none
              .missing none (some badNaturesStr) none]]) = .error e ∧
      e.title = (RowData.mk (str "T2")
        [PropRow.mk none none
          [BOCell.mk (some (str "corporate-entity-beneficial-owner")) none
            .missing none (some badNaturesStr) none]]).property_title_number ∧
      ∃ kp2 p2 kc2 cell2,
        (RowData.mk (str "T2")
          [PropRow.mk none none
            [BOCell.mk (some (str "corporate-entity-beneficial-owner")) none
              .missing none (some badNaturesStr) none]]).props.get? kp2 = some p2 ∧
        p2.bos.get? kc2 = some cell2 ∧
        e.propIndex = kp2 + 1 ∧ e.boIndex = kc2 + 1 ∧
        cell2.natures_of_control = some e.raw ∧
        e.raw.isEmpty = false ∧
        parse_natures e.raw = none ∧
        corporateKinds.contains (pyStrip (cell2.kind.getD [])) = true) :=
  ⟨rfl, malformed_natures_fatal_amended emptyRefData false noGeo _ 0 0 _ _
    rfl rfl (by decide)⟩


/-- Nature-of-control data that classification parses without error:
missing, empty, or accepted by the structured parse. -/
def naturesWellFormed (cell : BOCell) : Bool :=
  match cell.natures_of_control with
  | none => true
  | some ns => ns.isEmpty || (parse_natures ns).isSome

/-- C5: for a corporate/legal-entity controller whose address does not
end in an excluded-jurisdiction suffix, a fuzzy UK match (threshold 85)
on any of the legal-form fields forces status `'UK'` whatever else the
address contains; and when the address does end in such a suffix, the
classification result does not depend on the legal-form fields or on the
geospatial oracle at all — both UK checks are skipped entirely. -/
theorem uk_legal_form_classification :
    (∀ (R : RefData) (sg : Bool) (geo : Str → Bool) (t : Str) (i j : Nat)
       (cell : BOCell) (k0 : Str),
      cell.kind = some k0 → k0.isEmpty = false →
      corporateKinds.contains (pyStrip k0) = true →
      addressExcluded cell.address = false →
      legalFormUK cell.legal_form = true →
      naturesWellFormed cell = true →
      process_bo_cell R sg geo t i j cell = .ok (some (str "UK"))) ∧
    (∀ (R : RefData) (sg : Bool) (geo1 geo2 : Str → Bool) (t : Str)
       (i j : Nat) (k : Option Str) (addr : Option Str) (lf1 lf2 : LFVal)
       (ll : Option Str) (nat : Option Str) (nm : Option Str),
      addressExcluded addr = true →
      process_bo_cell R sg geo1 t i j (BOCell.mk k addr lf1 ll nat nm) =
        process_bo_cell R sg geo2 t i j (BOCell.mk k addr lf2 ll nat nm)) := by
  constructor
  · intro R sg geo t i j cell k0 hk hk0 hcorp haddr hlf hnat
    have hki : ¬ (pyStrip k0 = str "individual-beneficial-owner") := by
      intro hcontra; rw [hcontra] at hcorp; revert hcorp; decide
    have hks : ¬ (pyStrip k0 = str "super-secure-beneficial-owner") := by
      intro hcontra; rw [hcontra] at hcorp; revert hcorp; decide
    unfold naturesWellFormed at hnat
    unfold process_bo_cell
    rw [hk]
    cases hns : cell.natures_of_control with
    | none =>
      simp only [hk0, Bool.false_eq_true, if_false, if_neg hki, if_neg hks,
        hcorp, if_true, haddr, hlf, hns]
    | some ns =>
      simp only [hns] at hnat
      by_cases hne : ns.isEmpty = true
      · simp only [hk0, Bool.false_eq_true, if_false, if_neg hki, if_neg hks,
          hcorp, if_true, haddr, hlf, hns, hne]
      · rw [Bool.not_eq_true] at hne
        simp only [hne, Bool.false_or, Option.isSome_iff_exists] at hnat
        obtain ⟨l, hparse⟩ := hnat
        simp only [hk0, Bool.false_eq_true, if_false, if_neg hki, if_neg hks,
          hcorp, if_true, haddr, hlf, hns, hne, hparse]
  · intro R sg geo1 geo2 t i j k addr lf1 lf2 ll nat nm haddr
    unfold process_bo_cell
    cases k with
    | none => rfl
    | some k0 =>
      by_cases hk0 : k0.isEmpty = true
      · simp only [hk0, if_true]
      · rw [Bool.not_eq_true] at hk0
        simp only [hk0, Bool.false_eq_true, if_false, haddr, if_true]

/-- Witness for C5 on a concrete corporate controller with a Cayman
street address and `country_registered` equal to `"England and Wales"`,
and on the excluded-suffix invariance at a Jersey address. -/
theorem uk_legal_form_classification_witness :
    process_bo_cell emptyRefData false noGeo (str "T3") 1 1
      (BOCell.mk (some (str "corporate-entity-beneficial-owner"))
        (some (str "10 Offshore Way, George Town, Cayman Islands"))
        (LFVal.parsed none (some (str "England and Wales")) none)
        none (some (str "['ownership-of-shares-75-to-100-percent']"))
        (some (str "Acme Holdings")))
      = .ok (some (str "UK")) ∧
    process_bo_cell emptyRefData false noGeo (str "T3") 1 2
      (BOCell.mk (some (str "corporate-entity-beneficial-owner"))
        (some (str "1 High Street, St Helier, Jersey"))
        (LFVal.parsed none (some (str "England and Wales")) none)
        none (some (str "[]")) none)
      = process_bo_cell emptyRefData false (fun _ => true) (str "T3") 1 2
          (BOCell.mk (some (str "corporate-entity-beneficial-owner"))
            (some (str "1 High Street, St Helier, Jersey"))
            LFVal.missing none (some (str "[]")) none) :=
  ⟨uk_legal_form_classification.1 emptyRefData false noGeo (str "T3") 1 1 _
      _ rfl (by decide) (by decide) (by decide) (by decide) (by decide),
   uk_legal_form_classification.2 emptyRefData false noGeo (fun _ => true)
      (str "T3") 1 2 _ _ _ _ _ _ _ (by decide)⟩


/-! ### Whitespace-freeness of the normaliser (C10, and C3's preference) -/

/-- Characters of a stripped string come from the original. -/
theorem pyStrip_subset (cs : Str) : ∀ c ∈ pyStrip cs, c ∈ cs := by
  intro c hc
  unfold pyStrip at hc
  rw [List.mem_reverse] at hc
  have h2 : c ∈ ((cs.dropWhile isPySpace).reverse) :=
    (List.dropWhile_sublist _).subset hc
  rw [List.mem_reverse] at h2
  exact (List.dropWhile_sublist _).subset h2

/-- The final whitespace deletion leaves no whitespace in the output of
`normalise_text`, whatever the token list. -/
theorem normalise_text_no_space (tokens : List Str) (s : Str) :
    ∀ c ∈ normalise_text tokens s, isPySpace c = false := by
  intro c hc
  unfold normalise_text at hc
  have h1 := pyStrip_subset _ c hc
  rw [List.mem_filter] at h1
  simpa using h1.2

/-- `str.split()` of a whitespace-free string is empty or the whole
string. -/
theorem pySplitAux_no_space (cs : Str) (hs : ∀ c ∈ cs, isPySpace c = false) :
    ∀ acc, pySplitAux acc cs =
      if acc = [] ∧ cs = [] then [] else [acc.reverse ++ cs] := by
  induction cs with
  | nil =>
    intro acc
    by_cases ha : acc = []
    · simp [pySplitAux, ha]
    · simp [pySplitAux, ha]
  | cons c rest ih =>
    intro acc
    have hc : isPySpace c = false := hs c (by simp)
    have hrest : ∀ d ∈ rest, isPySpace d = false := fun d hd => hs d (by simp [hd])
    unfold pySplitAux
    rw [hc]
    simp only [Bool.false_eq_true, if_false]
    rw [ih hrest (c :: acc)]
    have hne : ¬(c :: acc = [] ∧ rest = []) := by simp
    have hne2 : ¬(acc = [] ∧ c :: rest = []) := by simp
    rw [if_neg hne, if_neg hne2]
    simp

/-- `pySplit` of a whitespace-free string. -/
theorem pySplit_no_space (cs : Str) (hs : ∀ c ∈ cs, isPySpace c = false) :
    pySplit cs = if cs = [] then [] else [cs] := by
  unfold pySplit
  rw [pySplitAux_no_space cs hs []]
  by_cases h : cs = [] <;> simp [h]

/-- Python set equality of the splits of two whitespace-free strings is
plain string equality. -/
theorem tokenSetEq_no_space (a b : Str)
    (ha : ∀ c ∈ a, isPySpace c = false) (hb : ∀ c ∈ b, isPySpace c = false) :
    tokenSetEq (pySplit a) (pySplit b) = true ↔ a = b := by
  rw [pySplit_no_space a ha, pySplit_no_space b hb]
  by_cases h1 : a = []
  · by_cases h2 : b = []
    · simp [h1, h2, tokenSetEq]
    · simp only [h1, if_pos rfl, if_neg h2]
      constructor
      · intro h; exact absurd h (by simp [tokenSetEq, h2])
      · intro h; exact absurd h.symm h2
  · by_cases h2 : b = []
    · simp only [if_neg h1, h2, if_pos rfl]
      constructor
      · intro h; exact absurd h (by simp [tokenSetEq, h1])
      · intro h; exact absurd h h1
    · simp only [if_neg h1, if_neg h2]
      unfold tokenSetEq
      constructor
      · intro h
        simp only [List.all_cons, List.all_nil, Bool.and_true,
          Bool.and_eq_true, List.contains_cons, List.contains_nil,
          Bool.or_false, beq_iff_eq] at h
        exact h.1
      · intro h
        subst h
        simp

/-- A strong ROE match is exactly a `registered-overseas-entity` item
whose normalised title equals the (whitespace-free) normalised query: the
token-set branch never fires on its own. -/
theorem is_strong_roe_iff_exact (tokens : List Str) (item : SearchItem)
    (nq : Str) (hnq : ∀ c ∈ nq, isPySpace c = false) :
    (is_strong_roe tokens item nq).fst = true ↔
      item.company_type = some (str "registered-overseas-entity") ∧
      normalise_text tokens (item.title.getD []) = nq := by
  unfold is_strong_roe
  by_cases hty : item.company_type = some (str "registered-overseas-entity")
  · simp only [hty, ne_eq, not_true_eq_false, if_false]
    by_cases hex : normalise_text tokens (item.title.getD []) = nq
    · simp [hex]
    · rw [if_neg hex]
      have htok : tokenSetEq (token_set tokens (item.title.getD []))
          (pySplit nq) = true ↔
          normalise_text tokens (item.title.getD []) = nq := by
        unfold token_set
        exact tokenSetEq_no_space _ _
          (normalise_text_no_space tokens (item.title.getD [])) hnq
      by_cases hcond : (tokenSetEq (token_set tokens (item.title.getD []))
          (pySplit nq) && !(nq.isEmpty)) = true
      · rw [Bool.and_eq_true] at hcond
        exact absurd (htok.mp hcond.1) hex
      · rw [if_neg (by simpa using hcond)]
        constructor
        · intro h; exact absurd h (by simp)
        · intro h; exact absurd h.2 hex
  · have hne : item.company_type ≠ some (str "registered-overseas-entity") := hty
    simp only [ne_eq, hne, not_false_eq_true, if_true]
    constructor
    · intro h; exact absurd h (by simp)
    · intro h; exact h.1.elim


/-- C10: `normalise_text` output never contains whitespace (the final
step deletes it rather than collapsing it), so `_token_set` has at most
one element, and for non-empty whitespace-free queries the resolver's
token-set-equality strong-match test succeeds exactly when the exact
normalised-name equality test does — so a strong ROE match is precisely
an exactly-matching `registered-overseas-entity` item. -/
theorem normalise_no_whitespace_token_set_equiv :
    (∀ (tokens : List Str) (s : Str) (c : Char),
      c ∈ normalise_text tokens s → isPySpace c = false) ∧
    (∀ (tokens : List Str) (s : Str), (token_set tokens s).length ≤ 1) ∧
    (∀ (tokens : List Str) (title nq : Str),
      (∀ c ∈ nq, isPySpace c = false) → nq ≠ [] →
      ((tokenSetEq (token_set tokens title) (pySplit nq) && !(nq.isEmpty)) = true
        ↔ normalise_text tokens title = nq)) ∧
    (∀ (tokens : List Str) (item : SearchItem) (nq : Str),
      (∀ c ∈ nq, isPySpace c = false) →
      ((is_strong_roe tokens item nq).fst = true ↔
        item.company_type = some (str "registered-overseas-entity") ∧
        normalise_text tokens (item.title.getD []) = nq)) := by
  refine ⟨?_, ?_, ?_, ?_⟩
  · exact fun tokens s c hc => normalise_text_no_space tokens s c hc
  · intro tokens s
    unfold token_set
    rw [pySplit_no_space _ (normalise_text_no_space tokens s)]
    split <;> simp
  · intro tokens title nq hnq hne
    have hiso : tokenSetEq (token_set tokens title) (pySplit nq) = true ↔
        normalise_text tokens title = nq := by
      unfold token_set
      exact tokenSetEq_no_space _ _ (normalise_text_no_space tokens title) hnq
    constructor
    · intro h
      rw [Bool.and_eq_true] at h
      exact hiso.mp h.1
    · intro h
      rw [Bool.and_eq_true]
      exact ⟨hiso.mpr h, by simpa [List.isEmpty_iff] using hne⟩
  · exact fun tokens item nq hnq => is_strong_roe_iff_exact tokens item nq hnq

/-- Witness for C10 on the modelled token list, a concrete title and the
concrete normalised query of `"Gable Enterprises Limited"`. -/
theorem normalise_no_whitespace_token_set_equiv_witness :
    (∀ c ∈ str "gableenterprises", isPySpace c = false) ∧
    (str "gableenterprises" : Str) ≠ [] ∧
    ((tokenSetEq (token_set TOKENS_TO_REMOVE (str "GABLE ENTERPRISES LIMITED"))
        (pySplit (str "gableenterprises")) && !((str "gableenterprises").isEmpty)) = true
      ↔ normalise_text TOKENS_TO_REMOVE (str "GABLE ENTERPRISES LIMITED")
          = str "gableenterprises") :=
  ⟨by decide, by decide,
   (normalise_no_whitespace_token_set_equiv.2.2.1 TOKENS_TO_REMOVE
     (str "GABLE ENTERPRISES LIMITED") (str "gableenterprises")
     (by decide) (by decide))⟩


/-- The search loop returns the first strong ROE item of the first
fetched page containing one, having consumed exactly the pages up to and
including it, whenever the earlier fetched pages are full and free of
strong ROE items. -/
theorem search_fetch_strong (tokens : List Str) (nq : Str) :
    ∀ (i : Nat) (pages : List (List SearchItem)) (pg : List SearchItem)
      (isFirst : Bool) (firstItems : List SearchItem)
      (fb : Option (SearchItem × String)) (n : Nat) (it : SearchItem),
      pages.get? i = some pg →
      pg.find? (fun x => (is_strong_roe tokens x nq).fst) = some it →
      (∀ j, j < i → ∀ pgj, pages.get? j = some pgj →
        pgj.find? (fun x => (is_strong_roe tokens x nq).fst) = none ∧
        100 ≤ pgj.length) →
      search_fetch tokens nq (pages.map HResp.ok) isFirst firstItems fb n
        = some (itemTuple it, n + (i + 1)) := by
  intro i
  induction i with
  | zero =>
    intro pages pg isFirst firstItems fb n it hpg hfind _
    cases pages with
    | nil => simp at hpg
    | cons p0 rest =>
      have hp0 : p0 = pg := by simpa using hpg
      subst hp0
      simp only [List.map_cons]
      unfold search_fetch
      rw [hfind]
  | succ i ih =>
    intro pages pg isFirst firstItems fb n it hpg hfind hbefore
    cases pages with
    | nil => simp at hpg
    | cons p0 rest =>
      have h0 := hbefore 0 (Nat.succ_pos i) p0 rfl
      simp only [List.map_cons]
      unfold search_fetch
      rw [h0.1]
      dsimp only
      rw [if_neg (Nat.not_lt.mpr h0.2)]
      have hrest : rest.get? i = some pg := by simpa using hpg
      have hb : ∀ j, j < i → ∀ pgj, rest.get? j = some pgj →
          pgj.find? (fun x => (is_strong_roe tokens x nq).fst) = none ∧
          100 ≤ pgj.length := by
        intro j hj pgj hg
        exact hbefore (j + 1) (by omega) pgj (by simpa using hg)
      have harith : n + 1 + (i + 1) = n + (i + 1 + 1) := by omega
      rw [← harith]
      exact ih rest pg false (if isFirst = true then p0 else firstItems)
        (updateOversea tokens nq fb p0) (n + 1) it hrest hfind hb

/-- C3: whenever a fetched page of the name search holds an item of the
primary regulated category satisfying the strong-match predicate (all
earlier fetched pages being full and without one), `get_company_details`
returns a strong primary-category item immediately — the first such item
of that page, consuming no further pages — and the returned item is in
fact an exact-normalised-name match (token-set equality cannot hold
without exact equality, so the exact-name preference holds), from the
first page encountered. -/
theorem strong_roe_short_circuit (tokens : List Str) (name : Str)
    (pages : List (List SearchItem)) (i : Nat) (pg : List SearchItem)
    (hpg : pages.get? i = some pg)
    (hex : ∃ x ∈ pg, (is_strong_roe tokens x (normalise_text tokens name)).fst = true)
    (hbefore : ∀ j, j < i → ∀ pgj, pages.get? j = some pgj →
      pgj.find? (fun x => (is_strong_roe tokens x (normalise_text tokens name)).fst) = none ∧
      100 ≤ pgj.length) :
    ∃ it, pg.find? (fun x => (is_strong_roe tokens x (normalise_text tokens name)).fst)
        = some it ∧
      get_company_details_http tokens name (pages.map HResp.ok)
        = some (itemTuple it, i + 1) ∧
      (is_strong_roe tokens it (normalise_text tokens name)).fst = true ∧
      it.company_type = some (str "registered-overseas-entity") ∧
      normalise_text tokens (it.title.getD []) = normalise_text tokens name := by
  have hfind : (pg.find? (fun x => (is_strong_roe tokens x
      (normalise_text tokens name)).fst)).isSome := by
    rw [List.find?_isSome]
    obtain ⟨x, hx, hpx⟩ := hex
    exact ⟨x, hx, hpx⟩
  rw [Option.isSome_iff_exists] at hfind
  obtain ⟨it, hit⟩ := hfind
  have hstrong := List.find?_some hit
  have hiff := is_strong_roe_iff_exact tokens it (normalise_text tokens name)
    (normalise_text_no_space tokens name)
  refine ⟨it, hit, ?_, hstrong, (hiff.mp hstrong).1, (hiff.mp hstrong).2⟩
  unfold get_company_details_http
  have := search_fetch_strong tokens (normalise_text tokens name) i pages pg
    true [] none 0 it hpg hit hbefore
  simpa using this

/-- A concrete strong ROE search item. -/
def gableItem : SearchItem :=
  { company_type := some (str "registered-overseas-entity")
  , title := some (str "GABLE ENTERPRISES LIMITED")
  , company_number := some (str "OE001234")
  , address_snippet := some (str "1 Gable Street")
  , company_status := some (str "registered")
  , snippet := none }

/-- Witness for C3: a one-page search result whose only item is a strong
ROE match for `"Gable Enterprises Limited"` is returned from page 0. -/
theorem strong_roe_short_circuit_witness :
    ([[gableItem]].get? 0 = some [gableItem]) ∧
    (∃ it, ([gableItem].find? (fun x => (is_strong_roe TOKENS_TO_REMOVE x
        (normalise_text TOKENS_TO_REMOVE (str "Gable Enterprises Limited"))).fst))
        = some it ∧
      get_company_details_http TOKENS_TO_REMOVE (str "Gable Enterprises Limited")
          ([[gableItem]].map HResp.ok)
        = some (itemTuple it, 0 + 1) ∧
      (is_strong_roe TOKENS_TO_REMOVE it
        (normalise_text TOKENS_TO_REMOVE (str "Gable Enterprises Limited"))).fst = true ∧
      it.company_type = some (str "registered-overseas-entity") ∧
      normalise_text TOKENS_TO_REMOVE (it.title.getD [])
        = normalise_text TOKENS_TO_REMOVE (str "Gable Enterprises Limited")) :=
  ⟨rfl, strong_roe_short_circuit TOKENS_TO_REMOVE
    (str "Gable Enterprises Limited") [[gableItem]] 0 [gableItem] rfl
    ⟨gableItem, by decide, by decide⟩
    (fun j hj pgj _ => absurd hj (by omega))⟩


/-- C8: resolution is cached and write-once.  If the normalised name is
absent from the cache and a first resolution completes, then (i) the
result — positive or negative — is stored under the normalised name
before returning, (ii) a second resolution of the same raw name returns
the cached value with zero HTTP requests whatever the registry would now
answer, so resolution is deterministic within a run, and (iii) every
pre-existing cache entry survives unchanged — entries are never
overwritten or invalidated. -/
theorem resolution_cached_write_once (tokens : List Str) (name : Str)
    (resps1 resps2 : List (HResp (List SearchItem))) (cache : PropCache)
    (r : CompanyDetails) (c1 : PropCache) (n1 : Nat)
    (hmiss : lookupCache (normalise_text tokens name) cache = none)
    (h1 : get_company_details_cached tokens name resps1 cache = some (r, c1, n1)) :
    lookupCache (normalise_text tokens name) c1 = some r ∧
    get_company_details_cached tokens name resps2 c1 = some (r, c1, 0) ∧
    (∀ k v, lookupCache k cache = some v → lookupCache k c1 = some v) := by
  unfold get_company_details_cached at h1
  dsimp only at h1
  rw [hmiss] at h1
  cases hrun : get_company_details_http tokens name resps1 with
  | none => rw [hrun] at h1; exact absurd h1 (by simp)
  | some p =>
    obtain ⟨r0, n0⟩ := p
    rw [hrun] at h1
    simp only [Option.some.injEq, Prod.mk.injEq] at h1
    obtain ⟨hr, hc, _⟩ := h1
    subst hr
    subst hc
    refine ⟨?_, ?_, ?_⟩
    · simp [lookupCache]
    · simp [get_company_details_cached, lookupCache]
    · intro k v hkv
      unfold lookupCache
      by_cases hk : normalise_text tokens name = k
      · rw [hk] at hmiss
        rw [hmiss] at hkv
        exact absurd hkv (by simp)
      · rw [if_neg hk]
        exact hkv

/-- Witness for C8: resolving a concrete name against an empty first page
misses the empty cache, stores the negative result, and the second
resolution is served from the cache with zero requests. -/
theorem resolution_cached_write_once_witness :
    lookupCache (normalise_text TOKENS_TO_REMOVE (str "Acme Overseas"))
      ([] : PropCache) = none ∧
    (lookupCache (normalise_text TOKENS_TO_REMOVE (str "Acme Overseas"))
        ((normalise_text TOKENS_TO_REMOVE (str "Acme Overseas"),
          ((none, none, none, none) : CompanyDetails)) :: []) =
        some ((none, none, none, none) : CompanyDetails) ∧
      get_company_details_cached TOKENS_TO_REMOVE (str "Acme Overseas")
          [HResp.status 500]
          ((normalise_text TOKENS_TO_REMOVE (str "Acme Overseas"),
            ((none, none, none, none) : CompanyDetails)) :: []) =
        some (((none, none, none, none) : CompanyDetails),
          (normalise_text TOKENS_TO_REMOVE (str "Acme Overseas"),
            ((none, none, none, none) : CompanyDetails)) :: [], 0) ∧
      (∀ k v, lookupCache k ([] : PropCache) = some v →
        lookupCache k ((normalise_text TOKENS_TO_REMOVE (str "Acme Overseas"),
          ((none, none, none, none) : CompanyDetails)) :: []) = some v)) :=
  ⟨rfl, resolution_cached_write_once TOKENS_TO_REMOVE (str "Acme Overseas")
    [HResp.ok []] [HResp.status 500] [] (none, none, none, none) _ 1 rfl rfl⟩

/-- C9, counterexample: a 403 on the name search is *not* returned as an
immediate negative result — the search retries.  With a single 403
response the search is still retrying (no result), and with a 403
followed by a 200 it issues a second request, consuming two responses. -/
theorem search_403_retries_counterexample :
    get_company_details_http TOKENS_TO_REMOVE (str "Acme Overseas")
      [HResp.status 403] = none ∧
    get_company_details_http TOKENS_TO_REMOVE (str "Acme Overseas")
      [HResp.status 403, HResp.ok []]
      = some (((none, none, none, none) : CompanyDetails), 2) ∧
    get_company_profile_fetch [HResp.status 403] 0 = some (none, 1) := by
  refine ⟨rfl, rfl, rfl⟩

/-- C9, amended: the company-profile fetch and the controller-list fetch
return a negative/empty result on the first 404 or 403 response without
any retry (exactly one request), and retry on other unexpected statuses
such as 500; the name search does so for 404, but a 403 on the search
falls into the generic retry branch and consumes the next response
instead of returning. -/
theorem not_found_forbidden_no_retry_amended :
    (∀ (rest : List (HResp Profile)) (code n : Nat),
      (code = 404 ∨ code = 403) →
      get_company_profile_fetch (HResp.status code :: rest) n = some (none, n + 1)) ∧
    (∀ (rest : List (HResp (List BO))) (code n : Nat),
      (code = 404 ∨ code = 403) →
      get_BO_list_fetch (HResp.status code :: rest) n = some ([], n + 1)) ∧
    (∀ (tokens : List Str) (nq : Str) (rest : List (HResp (List SearchItem)))
       (isFirst : Bool) (firstItems : List SearchItem)
       (fb : Option (SearchItem × String)) (n : Nat),
      search_fetch tokens nq (HResp.status 404 :: rest) isFirst firstItems fb n
        = some ((none, none, none, none), n + 1)) ∧
    (∀ (tokens : List Str) (nq : Str) (rest : List (HResp (List SearchItem)))
       (isFirst : Bool) (firstItems : List SearchItem)
       (fb : Option (SearchItem × String)) (n : Nat),
      search_fetch tokens nq (HResp.status 403 :: rest) isFirst firstItems fb n
        = search_fetch tokens nq rest isFirst firstItems fb (n + 1)) ∧
    (∀ (rest : List (HResp Profile)) (n : Nat),
      get_company_profile_fetch (HResp.status 500 :: rest) n
        = get_company_profile_fetch rest (n + 1)) ∧
    (∀ (rest : List (HResp (List BO))) (n : Nat),
      get_BO_list_fetch (HResp.status 500 :: rest) n
        = get_BO_list_fetch rest (n + 1)) := by
  refine ⟨?_, ?_, ?_, ?_, ?_, ?_⟩
  · intro rest code n hcode
    unfold get_company_profile_fetch
    rcases hcode with h | h <;> rw [h] <;> rw [if_pos (by omega)]
  · intro rest code n hcode
    unfold get_BO_list_fetch
    rcases hcode with h | h <;> rw [h] <;> rw [if_pos (by omega)]
  · intro tokens nq rest isFirst firstItems fb n
    rfl
  · intro tokens nq rest isFirst firstItems fb n
    rfl
  · intro rest n
    rfl
  · intro rest n
    rfl

/-- Witness for C9's amended theorem at concrete 404 and 403 heads. -/
theorem not_found_forbidden_no_retry_amended_witness :
    ((404 = 404 ∨ (404 : Nat) = 403) ∧
      get_company_profile_fetch [HResp.status 404] 0 = some (none, 1)) ∧
    (((403 : Nat) = 404 ∨ (403 : Nat) = 403) ∧
      get_BO_list_fetch [HResp.status 403] 0 = some ([], 1)) :=
  ⟨⟨Or.inl rfl, not_found_forbidden_no_retry_amended.1 [] 404 0 (Or.inl rfl)⟩,
   ⟨Or.inr rfl, not_found_forbidden_no_retry_amended.2.1 [] 403 0 (Or.inr rfl)⟩⟩


/-! ### Idempotence analysis of `normalise_text` (C6, C7)

The output of `normalise_text` consists of lowercase ASCII letters and
digits only.  Running the pipeline a second time is then almost the
identity: the acronym substitutions can only rewrite a whole-string
acronym, and the token removal can only delete the whole string (word
boundaries exist only at the ends of an alphanumeric blob) — so the
second pass differs from the identity exactly when the first pass's
output is itself a configured removal token. -/

theorem isLowerAlnum_not_space {c : Char} (h : isLowerAlnum c = true) :
    isPySpace c = false := by
  unfold isLowerAlnum at h
  unfold isPySpace
  simp only [Bool.or_eq_true, Bool.and_eq_true, decide_eq_true_eq] at h
  simp only [Bool.or_eq_true, Bool.and_eq_true, decide_eq_true_eq,
    Bool.or_eq_false_iff, Bool.and_eq_false_iff, decide_eq_false_iff_not]
  omega

theorem isLowerAlnum_word {c : Char} (h : isLowerAlnum c = true) :
    wordChar c = true := by
  unfold isLowerAlnum at h
  unfold wordChar
  simp only [Bool.or_eq_true, Bool.and_eq_true, decide_eq_true_eq] at h
  simp only [Bool.or_eq_true, Bool.and_eq_true, decide_eq_true_eq]
  omega

theorem isLowerAlnum_ne_dot {c : Char} (h : isLowerAlnum c = true) :
    ¬(c = '.') := by
  intro hc
  subst hc
  exact absurd h (by decide)

theorem isLowerAlnum_keep {c : Char} (h : isLowerAlnum c = true) :
    keepChar c = true := by
  unfold keepChar
  rw [h, Bool.true_or]

/-- The default last character of a non-empty list is a member. -/
theorem getLastD_mem : ∀ (cs : Str) (d : Char), cs ≠ [] → cs.getLastD d ∈ cs := by
  intro cs
  induction cs with
  | nil => intro d h; exact absurd rfl h
  | cons c rest ih =>
    intro d _
    cases hr : rest with
    | nil => simp
    | cons x xs =>
      rw [List.getLastD_cons]
      have := ih c (by simp [hr])
      rw [hr] at this
      exact List.mem_cons_of_mem c this

/-- Characters of the token-removal output come from its input. -/
theorem reSubWordF_subset (tokens : List Str) :
    ∀ (fuel : Nat) (pw : Bool) (cs : Str) (c : Char),
      c ∈ reSubWordF tokens fuel pw cs → c ∈ cs := by
  intro fuel
  induction fuel with
  | zero => intro pw cs c hc; simpa [reSubWordF] using hc
  | succ f ih =>
    intro pw cs c hc
    cases cs with
    | nil => simpa [reSubWordF] using hc
    | cons c0 rest =>
      unfold reSubWordF at hc
      cases ht : tokenAt pw tokens (c0 :: rest) with
      | some t =>
        rw [ht] at hc
        have h2 := ih _ _ c hc
        exact List.drop_subset _ _ h2
      | none =>
        rw [ht] at hc
        rcases List.mem_cons.mp hc with rfl | hc2
        · exact List.mem_cons_self c rest
        · exact List.mem_cons_of_mem c0 (ih _ _ c hc2)

/-- The output of `normalise_text` is all lowercase ASCII alphanumerics,
whatever the token list. -/
theorem normalise_text_alnum (tokens : List Str) (s : Str) :
    ∀ c ∈ normalise_text tokens s, isLowerAlnum c = true := by
  intro c hc
  unfold normalise_text at hc
  dsimp only at hc
  have h1 := pyStrip_subset _ c hc
  rw [List.mem_filter] at h1
  have h2 := h1.1
  have h3 := h1.2
  have h4 := reSubWordF_subset tokens _ _ _ c h2
  rw [List.mem_filter] at h4
  have h5 := h4.2
  unfold keepChar at h5
  rw [Bool.or_eq_true] at h5
  rcases h5 with h5 | h5
  · exact h5
  · exfalso
    rw [h5] at h3
    exact absurd h3 (by simp)

/-- `lowerFoldChar` is the identity on lowercase alphanumerics. -/
theorem lowerFoldChar_alnum {c : Char} (h : isLowerAlnum c = true) :
    lowerFoldChar c = [c] := by
  have hn : (97 ≤ c.toNat ∧ c.toNat ≤ 122) ∨ (48 ≤ c.toNat ∧ c.toNat ≤ 57) := by
    unfold isLowerAlnum at h
    simp only [Bool.or_eq_true, Bool.and_eq_true, decide_eq_true_eq] at h
    exact h
  unfold lowerFoldChar
  rw [if_neg (by omega), if_neg (by omega)]
  have hfind : accentBase.find? (fun p => p.fst = c) = none := by
    rw [List.find?_eq_none]
    intro p hp
    simp only [decide_eq_true_eq]
    intro hpc
    have hall : ∀ q ∈ accentBase, isLowerAlnum q.fst = false := by decide
    have := hall p hp
    rw [hpc, h] at this
    exact absurd this (by simp)
  rw [hfind]

/-- `lowerFold` is the identity on all-alphanumeric strings. -/
theorem lowerFold_alnum (cs : Str) (h : ∀ c ∈ cs, isLowerAlnum c = true) :
    lowerFold cs = cs := by
  induction cs with
  | nil => rfl
  | cons c rest ih =>
    unfold lowerFold
    simp only [List.map_cons, List.flatten_cons]
    rw [lowerFoldChar_alnum (h c (by simp))]
    have := ih (fun d hd => h d (by simp [hd]))
    unfold lowerFold at this
    rw [this]
    rfl


/-- On all-alphanumeric text the acronym separator consumes nothing. -/
theorem acrSep_alnum (cs : Str) (h : ∀ c ∈ cs, isLowerAlnum c = true) :
    acrSep cs = cs := by
  cases cs with
  | nil => rfl
  | cons c r =>
    have hdw : List.dropWhile isPySpace (c :: r) = c :: r := by
      rw [List.dropWhile_cons, isLowerAlnum_not_space (h c (by simp))]
      simp
    unfold acrSep
    simp only [hdw, List.headD_cons]
    rw [if_neg (isLowerAlnum_ne_dot (h c (by simp)))]

/-- On all-alphanumeric text the tail matcher is a plain prefix test. -/
theorem acrMatchRest_alnum (ls : List Char) :
    ∀ (cs : Str), (∀ c ∈ cs, isLowerAlnum c = true) →
      acrMatchRest ls cs =
        if ls.isPrefixOf cs then some (cs.drop ls.length) else none := by
  induction ls with
  | nil =>
    intro cs _
    simp [acrMatchRest, List.isPrefixOf]
  | cons l ls ih =>
    intro cs hcs
    unfold acrMatchRest
    rw [acrSep_alnum cs hcs]
    cases cs with
    | nil =>
      rw [if_neg (by simp)]
      rw [if_neg (by simp [List.isPrefixOf])]
    | cons c r =>
      by_cases hcl : c = l
      · subst hcl
        rw [if_pos (by simp)]
        simp only [List.tail_cons]
        rw [ih r (fun d hd => hcs d (by simp [hd]))]
        by_cases hp : ls.isPrefixOf r
        · rw [if_pos hp, if_pos (by simp [List.isPrefixOf, hp])]
          simp
        · rw [if_neg hp, if_neg (by simp [List.isPrefixOf, hp])]
      · rw [if_neg (by simp [hcl])]
        rw [if_neg (by simp [List.isPrefixOf, Ne.symm hcl])]

/-- On all-alphanumeric text the full letter matcher is a prefix test. -/
theorem acrMatchLetters_alnum (l : Char) (ls : List Char) (cs : Str)
    (hcs : ∀ c ∈ cs, isLowerAlnum c = true) :
    acrMatchLetters (l :: ls) cs =
      if (l :: ls).isPrefixOf cs then some (cs.drop (ls.length + 1)) else none := by
  cases cs with
  | nil => simp [acrMatchLetters, List.isPrefixOf]
  | cons c r =>
    have heq : acrMatchLetters (l :: ls) (c :: r)
        = if c = l then acrMatchRest ls r else none := rfl
    rw [heq]
    by_cases hcl : c = l
    · subst hcl
      rw [if_pos rfl]
      rw [acrMatchRest_alnum ls r (fun d hd => hcs d (by simp [hd]))]
      by_cases hp : ls.isPrefixOf r
      · rw [if_pos hp, if_pos (by simp [List.isPrefixOf, hp])]
        simp
      · rw [if_neg hp, if_neg (by simp [List.isPrefixOf, hp])]
    · rw [if_neg hcl, if_neg (by simp [List.isPrefixOf, Ne.symm hcl])]

/-- On all-alphanumeric text an acronym matches exactly when it is the
whole text (any longer text continues with a word character, killing the
trailing boundary). -/
theorem acrMatchAt_alnum (letters : List Char) (hl : letters ≠ [])
    (cs : Str) (hcs : ∀ c ∈ cs, isLowerAlnum c = true) :
    acrMatchAt letters cs = if cs = letters then some [] else none := by
  cases letters with
  | nil => exact absurd rfl hl
  | cons l ls =>
    unfold acrMatchAt
    rw [acrMatchLetters_alnum l ls cs hcs]
    by_cases hp : (l :: ls).isPrefixOf cs
    · rw [if_pos hp]
      have hpre : (l :: ls) <+: cs := List.isPrefixOf_iff_prefix.mp hp
      obtain ⟨suf, hsuf⟩ := hpre
      have hdrop : cs.drop (ls.length + 1) = suf := by
        rw [← hsuf]
        have : ls.length + 1 = (l :: ls).length := by simp
        rw [this, List.drop_left]
      rw [hdrop]
      cases hs : suf with
      | nil =>
        rw [if_pos (by rw [← hsuf, hs]; simp)]
        rfl
      | cons d ds =>
        have hd : isLowerAlnum d = true := by
          apply hcs
          rw [← hsuf, hs]
          exact List.mem_append_right _ (by simp)
        rw [Option.some_bind]
        rw [List.headD_cons, if_pos (isLowerAlnum_word hd)]
        rw [if_neg]
        intro hcontra
        rw [hcontra] at hsuf
        have := congrArg List.length hsuf
        rw [hs] at this
        simp at this
    · rw [if_neg hp, if_neg]
      · rfl
      · intro hcontra
        rw [hcontra] at hp
        exact hp (List.isPrefixOf_iff_prefix.mpr (List.prefix_refl _))


/-- Inside an all-word-character run no boundary exists, so the acronym
scanner copies it unchanged. -/
theorem subAcrAuxF_word (letters : List Char) :
    ∀ (fuel : Nat) (cs : Str), cs.length ≤ fuel →
      (∀ c ∈ cs, wordChar c = true) →
      subAcrAuxF letters fuel true cs = cs := by
  intro fuel
  induction fuel with
  | zero =>
    intro cs hlen _
    have : cs = [] := List.length_eq_zero.mp (by omega)
    subst this; rfl
  | succ f ih =>
    intro cs hlen hw
    cases cs with
    | nil => rfl
    | cons c rest =>
      unfold subAcrAuxF
      rw [if_pos rfl]
      rw [hw c (by simp)]
      rw [ih rest (by simp at hlen; omega) (fun d hd => hw d (by simp [hd]))]

/-- At a start-of-word position in all-alphanumeric text the acronym
substitution rewrites the whole text if it is the acronym, and copies it
otherwise. -/
theorem subAcrAuxF_start (letters : List Char) (hl1 : letters ≠ [])
    (hl2 : ∀ c ∈ letters, isLowerAlnum c = true) :
    ∀ (fuel : Nat) (cs : Str), cs.length ≤ fuel →
      (∀ c ∈ cs, isLowerAlnum c = true) →
      subAcrAuxF letters fuel false cs =
        if cs = letters then ' ' :: letters else cs := by
  intro fuel
  induction fuel with
  | zero =>
    intro cs hlen _
    have : cs = [] := List.length_eq_zero.mp (by omega)
    subst this
    rw [if_neg (fun hcontra => hl1 hcontra.symm)]
    rfl
  | succ f ih =>
    intro cs hlen hcs
    cases cs with
    | nil =>
      rw [if_neg (fun hcontra => hl1 hcontra.symm)]
      rfl
    | cons c rest =>
      unfold subAcrAuxF
      rw [if_neg (by simp)]
      rw [acrMatchAt_alnum letters hl1 (c :: rest) hcs]
      by_cases heq : c :: rest = letters
      · rw [if_pos heq, if_pos heq]
        have hnil : subAcrAuxF letters f true [] = [] := by
          cases f <;> rfl
        dsimp only
        rw [hnil, List.append_nil]
      · rw [if_neg heq, if_neg heq]
        rw [isLowerAlnum_word (hcs c (by simp))]
        rw [subAcrAuxF_word letters f rest (by simp at hlen; omega)
          (fun d hd => isLowerAlnum_word (hcs d (by simp [hd])))]

/-- One acronym pass over an all-alphanumeric string. -/
theorem subAcr_alnum (letters : List Char) (hl1 : letters ≠ [])
    (hl2 : ∀ c ∈ letters, isLowerAlnum c = true)
    (cs : Str) (hcs : ∀ c ∈ cs, isLowerAlnum c = true) :
    subAcr letters cs = if cs = letters then ' ' :: letters else cs := by
  unfold subAcr
  exact subAcrAuxF_start letters hl1 hl2 cs.length cs le_rfl hcs

/-- One acronym pass over a space followed by an all-alphanumeric word. -/
theorem subAcr_space_word (letters : List Char) (hl1 : letters ≠ [])
    (hl2 : ∀ c ∈ letters, isLowerAlnum c = true)
    (w : Str) (hw : ∀ c ∈ w, isLowerAlnum c = true) :
    subAcr letters (' ' :: w) =
      ' ' :: (if w = letters then ' ' :: letters else w) := by
  unfold subAcr
  have hmatch : acrMatchAt letters (' ' :: w) = none := by
    cases letters with
    | nil => exact absurd rfl hl1
    | cons l ls =>
      unfold acrMatchAt
      have heq : acrMatchLetters (l :: ls) (' ' :: w)
          = if ' ' = l then acrMatchRest ls w else none := rfl
      rw [heq]
      rw [if_neg]
      · rfl
      · intro hcontra
        have := hl2 l (by simp)
        rw [← hcontra] at this
        exact absurd this (by decide)
  have hlen : (' ' :: w).length = w.length + 1 := by simp
  rw [hlen]
  unfold subAcrAuxF
  rw [if_neg (by simp)]
  rw [hmatch]
  have hspace : wordChar ' ' = false := by decide
  rw [hspace]
  rw [subAcrAuxF_start letters hl1 hl2 w.length w le_rfl hw]

/-- The four acronym passes over an all-alphanumeric string: the string
is rewritten to a space plus itself when it is one of the four acronyms,
and kept unchanged otherwise. -/
theorem acr_chain_alnum (b : Str) (hb : ∀ c ∈ b, isLowerAlnum c = true) :
    subAcr gmbhLetters (subAcr bvLetters (subAcr spaLetters (subAcr sarlLetters b)))
      = if b = sarlLetters ∨ b = spaLetters ∨ b = bvLetters ∨ b = gmbhLetters
        then ' ' :: b else b := by
  have hsarl : sarlLetters ≠ [] := by decide
  have hsarl2 : ∀ c ∈ sarlLetters, isLowerAlnum c = true := by decide
  have hspa : spaLetters ≠ [] := by decide
  have hspa2 : ∀ c ∈ spaLetters, isLowerAlnum c = true := by decide
  have hbv : bvLetters ≠ [] := by decide
  have hbv2 : ∀ c ∈ bvLetters, isLowerAlnum c = true := by decide
  have hgmbh : gmbhLetters ≠ [] := by decide
  have hgmbh2 : ∀ c ∈ gmbhLetters, isLowerAlnum c = true := by decide
  rw [subAcr_alnum sarlLetters hsarl hsarl2 b hb]
  by_cases h1 : b = sarlLetters
  · subst h1
    rw [if_pos rfl]
    rw [subAcr_space_word spaLetters hspa hspa2 sarlLetters hb]
    rw [if_neg (by decide)]
    rw [subAcr_space_word bvLetters hbv hbv2 sarlLetters hb]
    rw [if_neg (by decide)]
    rw [subAcr_space_word gmbhLetters hgmbh hgmbh2 sarlLetters hb]
    rw [if_neg (by decide)]
    rw [if_pos (Or.inl rfl)]
  · rw [if_neg h1]
    rw [subAcr_alnum spaLetters hspa hspa2 b hb]
    by_cases h2 : b = spaLetters
    · subst h2
      rw [if_pos rfl]
      rw [subAcr_space_word bvLetters hbv hbv2 spaLetters hb]
      rw [if_neg (by decide)]
      rw [subAcr_space_word gmbhLetters hgmbh hgmbh2 spaLetters hb]
      rw [if_neg (by decide)]
      rw [if_pos (Or.inr (Or.inl rfl))]
    · rw [if_neg h2]
      rw [subAcr_alnum bvLetters hbv hbv2 b hb]
      by_cases h3 : b = bvLetters
      · subst h3
        rw [if_pos rfl]
        rw [subAcr_space_word gmbhLetters hgmbh hgmbh2 bvLetters hb]
        rw [if_neg (by decide)]
        rw [if_pos (Or.inr (Or.inr (Or.inl rfl)))]
      · rw [if_neg h3]
        rw [subAcr_alnum gmbhLetters hgmbh hgmbh2 b hb]
        by_cases h4 : b = gmbhLetters
        · subst h4
          rw [if_pos rfl, if_pos (Or.inr (Or.inr (Or.inr rfl)))]
        · rw [if_neg h4, if_neg (by simp [h1, h2, h3, h4])]


/-- On a non-empty all-alphanumeric text a token matches at the start
exactly when it is the whole text: a proper prefix is followed by a word
character, which kills the trailing boundary. -/
theorem matchTok_alnum (t : Str) (cs : Str) (hne : cs ≠ [])
    (hcs : ∀ c ∈ cs, isLowerAlnum c = true) :
    matchTok t cs = true ↔ t = cs := by
  constructor
  · intro h
    unfold matchTok at h
    simp only [Bool.and_eq_true] at h
    obtain ⟨⟨ht1, ht2⟩, ht3⟩ := h
    have htne : t ≠ [] := by simpa [List.isEmpty_iff] using ht1
    have hpre : t <+: cs := List.isPrefixOf_iff_prefix.mp ht2
    have hlast : wordChar (t.getLastD 'x') = true := by
      have hm : t.getLastD 'x' ∈ t := getLastD_mem t 'x' htne
      exact isLowerAlnum_word (hcs _ (hpre.subset hm))
    rw [hlast] at ht3
    cases hdrop : cs.drop t.length with
    | nil =>
      have hlen : cs.length ≤ t.length := by
        have := congrArg List.length hdrop
        simp only [List.length_drop] at this
        simp at this
        omega
      exact (List.IsPrefix.eq_of_length hpre
        (Nat.le_antisymm hpre.length_le hlen)).symm ▸ rfl
    | cons d ds =>
      exfalso
      have hd : d ∈ cs := by
        have : d ∈ cs.drop t.length := by rw [hdrop]; simp
        exact List.drop_subset _ _ this
      have hw : wordChar d = true := isLowerAlnum_word (hcs d hd)
      rw [hdrop] at ht3
      simp only [List.headD_cons, hw] at ht3
      exact absurd ht3 (by decide)
  · intro h
    subst h
    unfold matchTok
    simp only [Bool.and_eq_true]
    refine ⟨⟨by simpa [List.isEmpty_iff] using hne,
      List.isPrefixOf_iff_prefix.mpr (List.prefix_refl _)⟩, ?_⟩
    rw [List.drop_length]
    have hlast : wordChar (t.getLastD 'x') = true := by
      have hm : t.getLastD 'x' ∈ t := getLastD_mem t 'x' hne
      exact isLowerAlnum_word (hcs _ hm)
    rw [hlast]
    decide

/-- Inside an all-word-character run the token scanner copies
everything: there is no leading boundary. -/
theorem reSubWordF_word (tokens : List Str) :
    ∀ (fuel : Nat) (cs : Str), cs.length ≤ fuel →
      (∀ c ∈ cs, wordChar c = true) →
      reSubWordF tokens fuel true cs = cs := by
  intro fuel
  induction fuel with
  | zero =>
    intro cs hlen _
    have : cs = [] := List.length_eq_zero.mp (by omega)
    subst this; rfl
  | succ f ih =>
    intro cs hlen hw
    cases cs with
    | nil => rfl
    | cons c rest =>
      have htok : tokenAt true tokens (c :: rest) = none := by
        have heq : tokenAt true tokens (c :: rest)
            = if (true != wordChar c) = true
              then tokens.find? (fun t => matchTok t (c :: rest)) else none := rfl
        rw [heq, hw c (by simp)]
        rfl
      unfold reSubWordF
      rw [htok]
      rw [hw c (by simp)]
      rw [ih rest (by simp at hlen; omega) (fun d hd => hw d (by simp [hd]))]

/-- At a word start in all-alphanumeric text the token removal deletes
the whole text when it is a configured token, and copies it otherwise. -/
theorem reSubWordF_start (tokens : List Str) :
    ∀ (fuel : Nat) (cs : Str), cs.length ≤ fuel →
      (∀ c ∈ cs, isLowerAlnum c = true) →
      reSubWordF tokens fuel false cs = if cs ∈ tokens then [] else cs := by
  intro fuel
  induction fuel with
  | zero =>
    intro cs hlen _
    have : cs = [] := List.length_eq_zero.mp (by omega)
    subst this
    by_cases h : ([] : Str) ∈ tokens <;> simp [reSubWordF, h]
  | succ f ih =>
    intro cs hlen hcs
    cases cs with
    | nil =>
      by_cases h : ([] : Str) ∈ tokens <;> simp [reSubWordF, h]
    | cons c rest =>
      have hword : wordChar c = true := isLowerAlnum_word (hcs c (by simp))
      have heq : tokenAt false tokens (c :: rest)
          = if (false != wordChar c) = true
            then tokens.find? (fun t => matchTok t (c :: rest)) else none := rfl
      rw [hword] at heq
      simp only [if_pos (by decide : (false != true) = true)] at heq
      unfold reSubWordF
      cases hf : tokens.find? (fun t => matchTok t (c :: rest)) with
      | some t =>
        rw [heq, hf]
        dsimp only
        have hmt := List.find?_some hf
        have ht : t = c :: rest :=
          (matchTok_alnum t (c :: rest) (by simp) hcs).mp hmt
        have hmem : (c :: rest) ∈ tokens := by
          rw [← ht]
          exact List.mem_of_find?_eq_some hf
        rw [if_pos hmem]
        subst ht
        rw [List.drop_length]
        cases f <;> rfl
      | none =>
        rw [heq, hf]
        dsimp only
        have hnomem : (c :: rest) ∉ tokens := by
          intro hmem
          have hsome : (tokens.find? (fun t => matchTok t (c :: rest))).isSome := by
            rw [List.find?_isSome]
            exact ⟨c :: rest, hmem,
              (matchTok_alnum _ _ (by simp) hcs).mpr rfl⟩
          rw [hf] at hsome
          exact absurd hsome (by simp)
        rw [if_neg hnomem, hword]
        rw [reSubWordF_word tokens f rest (by simp at hlen; omega)
          (fun d hd => isLowerAlnum_word (hcs d (by simp [hd])))]

/-- The token removal over an all-alphanumeric string. -/
theorem reSubWord_alnum (tokens : List Str) (cs : Str)
    (hcs : ∀ c ∈ cs, isLowerAlnum c = true) :
    reSubWord tokens false cs = if cs ∈ tokens then [] else cs := by
  unfold reSubWord
  exact reSubWordF_start tokens cs.length cs le_rfl hcs

/-- The token removal over a space followed by an all-alphanumeric word:
the space carries no boundary into itself, and the word is deleted
exactly when it is a configured token. -/
theorem reSubWord_space_word (tokens : List Str) (w : Str)
    (hw : ∀ c ∈ w, isLowerAlnum c = true) :
    reSubWord tokens false (' ' :: w) = ' ' :: (if w ∈ tokens then [] else w) := by
  unfold reSubWord
  have hlen : (' ' :: w).length = w.length + 1 := by simp
  rw [hlen]
  have htok : tokenAt false tokens (' ' :: w) = none := by
    have heq : tokenAt false tokens (' ' :: w)
        = if (false != wordChar ' ') = true
          then tokens.find? (fun t => matchTok t (' ' :: w)) else none := rfl
    rw [heq]
    rfl
  unfold reSubWordF
  rw [htok]
  have hspace : wordChar ' ' = false := by decide
  rw [hspace]
  rw [reSubWordF_start tokens w.length w le_rfl hw]

/-- `dropWhile` is the identity when the predicate fails everywhere. -/
theorem dropWhile_eq_self_of (p : Char → Bool) (cs : Str)
    (h : ∀ c ∈ cs, p c = false) : cs.dropWhile p = cs := by
  cases cs with
  | nil => rfl
  | cons c r =>
    rw [List.dropWhile_cons, h c (by simp)]
    simp

/-- `pyStrip` is the identity on whitespace-free strings. -/
theorem pyStrip_no_space (cs : Str)
    (h : ∀ c ∈ cs, isPySpace c = false) : pyStrip cs = cs := by
  unfold pyStrip
  rw [dropWhile_eq_self_of isPySpace cs h]
  rw [dropWhile_eq_self_of isPySpace cs.reverse
    (fun c hc => h c (List.mem_reverse.mp hc))]
  exact List.reverse_reverse cs

/-- The staged form of `normalise_text`. -/
theorem normalise_text_stages (tokens : List Str) (s : Str) :
    normalise_text tokens s =
      pyStrip ((reSubWord tokens false
        ((subAcr gmbhLetters (subAcr bvLetters (subAcr spaLetters
          (subAcr sarlLetters (lowerFold s))))).filter keepChar)).filter
            (fun c => !(isPySpace c))) := rfl


/-- C6, counterexample: with the configured removal tokens, normalising
`"limi ted"` once yields `"limited"` (the whitespace deletion fuses the
two halves only *after* token removal), and normalising a second time
deletes it, so the normaliser is not idempotent. -/
theorem normalise_not_idempotent_counterexample :
    normalise_text TOKENS_TO_REMOVE (str "limi ted") = str "limited" ∧
    normalise_text TOKENS_TO_REMOVE
      (normalise_text TOKENS_TO_REMOVE (str "limi ted")) = str "" ∧
    normalise_text TOKENS_TO_REMOVE
        (normalise_text TOKENS_TO_REMOVE (str "limi ted"))
      ≠ normalise_text TOKENS_TO_REMOVE (str "limi ted") := by
  refine ⟨by decide, by decide, by decide⟩

/-- C6, amended: for every token list and every string, the second
normalisation pass is the identity unless the first pass's output is
itself a configured removal token, in which case it returns the empty
string — `normalise_text (normalise_text s)` equals `normalise_text s`
exactly when `normalise_text s` is not a removal token. -/
theorem normalise_idempotent_amended (tokens : List Str) (s : Str) :
    normalise_text tokens (normalise_text tokens s) =
      if normalise_text tokens s ∈ tokens then [] else normalise_text tokens s := by
  have hb := normalise_text_alnum tokens s
  set b := normalise_text tokens s with hbdef
  rw [normalise_text_stages tokens b]
  rw [lowerFold_alnum b hb]
  rw [acr_chain_alnum b hb]
  by_cases hacr : b = sarlLetters ∨ b = spaLetters ∨ b = bvLetters ∨ b = gmbhLetters
  · rw [if_pos hacr]
    have hfilter1 : (' ' :: b).filter keepChar = ' ' :: b := by
      rw [List.filter_eq_self]
      intro a ha
      rcases List.mem_cons.mp ha with rfl | ha
      · decide
      · exact isLowerAlnum_keep (hb a ha)
    rw [hfilter1]
    rw [reSubWord_space_word tokens b hb]
    by_cases hmem : b ∈ tokens
    · rw [if_pos hmem]
      rfl
    · rw [if_neg hmem]
      have hf : (' ' :: b).filter (fun c => !(isPySpace c)) = b := by
        rw [List.filter_cons]
        rw [if_neg (by decide)]
        rw [List.filter_eq_self.mpr
          (fun a ha => by rw [isLowerAlnum_not_space (hb a ha)]; rfl)]
      rw [hf]
      exact pyStrip_no_space b (fun c hc => isLowerAlnum_not_space (hb c hc))
  · rw [if_neg hacr]
    rw [List.filter_eq_self.mpr (fun a ha => isLowerAlnum_keep (hb a ha))]
    rw [reSubWord_alnum tokens b hb]
    by_cases hmem : b ∈ tokens
    · rw [if_pos hmem]
      rfl
    · rw [if_neg hmem]
      rw [List.filter_eq_self.mpr
        (fun a ha => by rw [isLowerAlnum_not_space (hb a ha)]; rfl)]
      exact pyStrip_no_space b (fun c hc => isLowerAlnum_not_space (hb c hc))

/-- C7, counterexample: with the configured removal tokens, the dotted
spelling `"S.A."` of the `sa` suffix normalises to the empty string (the
fused `sa` is removed as a token) while the spaced spelling `"s a"`
normalises to `"sa"` — the two halves only fuse after token removal — so
the two spellings of the same legal suffix produce different outputs. -/
theorem suffix_spellings_counterexample :
    normalise_text TOKENS_TO_REMOVE (str "S.A.") = str "" ∧
    normalise_text TOKENS_TO_REMOVE (str "s a") = str "sa" ∧
    normalise_text TOKENS_TO_REMOVE (str "s a")
      ≠ normalise_text TOKENS_TO_REMOVE (str "S.A.") := by
  refine ⟨by decide, by decide, by decide⟩

/-- C7, amended: for every token list, dotted and undotted spellings of a
legal suffix normalise identically (`"S.A."` and `"SA"`), and for the
four specially collapsed acronyms (`sarl`, `spa`, `bv`, `gmbh`) dotted,
fused and space-separated spellings all agree; but for other suffixes a
space-separated spelling (`"s a"`) can differ from the fused one when the
fused suffix is a configured removal token, which is what the
counterexample shows. -/
theorem suffix_spellings_amended (tokens : List Str) :
    normalise_text tokens (str "S.A.") = normalise_text tokens (str "SA") ∧
    normalise_text tokens (str "s.a.r.l") = normalise_text tokens (str "sarl") ∧
    normalise_text tokens (str "s a r l") = normalise_text tokens (str "sarl") ∧
    normalise_text tokens (str "s.p.a") = normalise_text tokens (str "spa") ∧
    normalise_text tokens (str "s p a") = normalise_text tokens (str "spa") ∧
    normalise_text tokens (str "b.v") = normalise_text tokens (str "bv") ∧
    normalise_text tokens (str "b v") = normalise_text tokens (str "bv") ∧
    normalise_text tokens (str "g.m.b.h") = normalise_text tokens (str "gmbh") ∧
    normalise_text tokens (str "g m b h") = normalise_text tokens (str "gmbh") :=
  ⟨rfl, rfl, rfl, rfl, rfl, rfl, rfl, rfl, rfl⟩

end ROE
